import Mathlib

/-!
# Verification of the MUSIC nested grid hierarchy (mesh.hh / densities.cc)

Shallow embedding of the data structures and operations of MUSIC's
multi-level grid hierarchy:

* `Meshvar` / `MeshvarBnd` (src/mesh.hh): a rectangular 3D array with a
  uniform ghost margin.  The dynamically allocated flat data block
  `m_pdata` is modelled by a total function `ℤ → ℤ → ℤ → ℚ` on *logical*
  indices (the flattening map of `operator()` is injective on in-bounds
  indices, so a function on logical coordinates is a faithful model of
  every in-bounds access; real values are modelled by exact rationals).
* `GridHierarchy` (src/mesh.hh): the per-level grids together with the
  absolute-offset vectors `m_xoffabs/m_yoffabs/m_zoffabs` and
  `m_levelmin`.
* `refinement_hierarchy` (src/mesh.hh): the resolved geometry record
  (`offsets_`, `absoffsets_`, `len_`); the auxiliary floating point
  fields `x0_ … zl_` are derived output not read by any modelled
  operation and are not carried in the state.
* the entry/precondition logic of `fft_coarsen` and `fft_interpolate`
  and the mean bookkeeping of `normalize_density` (src/densities.cc).

C++ `unsigned`/`size_t` quantities are modelled by `ℕ`, `int`/`index_t`
by `ℤ`.  Where the source relies on wrap-around of unsigned arithmetic
(the offset deltas in `cut_patch`), the model uses exact integers and the
theorems restrict to the regime (non-negative deltas) in which the two
agree; parity tests agree in both regimes because `2^32` is even.
C++ `int` division truncates towards zero and is rendered as `Int.tdiv`;
where a quantity is known to be even, `/` (Euclidean division) agrees
with it and is used for exact halving.
-/

namespace Music

/-- Model of `MeshvarBnd<T>` (mesh.hh).  `m_nx/m_ny/m_nz` are the *raw*
extents including the `2*m_nbnd` ghost cells, exactly as stored by the
source; `size` subtracts the ghost margin.  `data i j k` is the value
returned by `operator()(i,j,k)` (logical indices; ghost cells have
logical indices `-m_nbnd ≤ i < size + m_nbnd`). -/
structure MeshvarBnd where
  m_nx : ℕ
  m_ny : ℕ
  m_nz : ℕ
  m_nbnd : ℕ
  m_offx : ℤ
  m_offy : ℤ
  m_offz : ℤ
  data : ℤ → ℤ → ℤ → ℚ

instance : Inhabited MeshvarBnd :=
  ⟨⟨0, 0, 0, 0, 0, 0, 0, fun _ _ _ => 0⟩⟩

namespace MeshvarBnd

/-- The general constructor `MeshvarBnd(nbnd, nx, ny, nz, xoff, yoff, zoff)`:
raw extents are the logical extents plus the ghost margin on both faces.
The C++ constructor leaves the data block uninitialized; the caller
supplies the initial contents (`zero()` or an explicit copy). -/
def make (nbnd : ℕ) (nx ny nz : ℕ) (ox oy oz : ℤ) (d : ℤ → ℤ → ℤ → ℚ) :
    MeshvarBnd :=
  ⟨nx + 2 * nbnd, ny + 2 * nbnd, nz + 2 * nbnd, nbnd, ox, oy, oz, d⟩

/-- `MeshvarBnd::size(dim)` = raw extent minus the ghost cells. -/
def size (m : MeshvarBnd) (dim : ℕ) : ℕ :=
  if dim = 0 then m.m_nx - 2 * m.m_nbnd
  else if dim = 1 then m.m_ny - 2 * m.m_nbnd
  else m.m_nz - 2 * m.m_nbnd

/-- `Meshvar::offset(dim)`. -/
def offset (m : MeshvarBnd) (dim : ℕ) : ℤ :=
  if dim = 0 then m.m_offx else if dim = 1 then m.m_offy else m.m_offz

end MeshvarBnd

/-- Model of `GridHierarchy<T>` (mesh.hh).  The refinement-mask vector and
`bhave_refmask` are carried separately by the mask-construction model
(`add_refinement_mask` below reinitializes every mask it reads). -/
structure GridHierarchy where
  m_nbnd : ℕ
  m_levelmin : ℕ
  m_pgrids : List MeshvarBnd
  m_xoffabs : List ℤ
  m_yoffabs : List ℤ
  m_zoffabs : List ℤ

namespace GridHierarchy

/-- `levelmax()` = `m_pgrids.size() - 1` as an unbounded integer;
for all states reachable in practice (`size < 2^32`) this distinguishes
exactly the same pairs as the C++ `unsigned` wrap-around value. -/
def levelmaxZ (gh : GridHierarchy) : ℤ :=
  (gh.m_pgrids.length : ℤ) - 1

/-- `levelmax()` as a natural number (valid whenever grids exist). -/
def levelmaxN (gh : GridHierarchy) : ℕ :=
  gh.m_pgrids.length - 1

/-- `levelmin()`. -/
def levelmin (gh : GridHierarchy) : ℕ :=
  gh.m_levelmin

/-- `size(ilevel, idim)` — `m_pgrids[ilevel]->size(idim)`. -/
def size (gh : GridHierarchy) (ilevel idim : ℕ) : ℕ :=
  (gh.m_pgrids.getD ilevel default).size idim

/-- `offset(ilevel, idim)` — `m_pgrids[ilevel]->offset(idim)`. -/
def offset (gh : GridHierarchy) (ilevel : ℕ) (idim : ℕ) : ℤ :=
  (gh.m_pgrids.getD ilevel default).offset idim

/-- `offset_abs(ilevel, idim)`. -/
def offset_abs (gh : GridHierarchy) (ilevel : ℕ) (idim : ℕ) : ℤ :=
  if idim = 0 then gh.m_xoffabs.getD ilevel 0
  else if idim = 1 then gh.m_yoffabs.getD ilevel 0
  else gh.m_zoffabs.getD ilevel 0

/-- `GridHierarchy::get_grid(ilevel)`: accessing a level at or beyond
`m_pgrids.size()` throws `"Fatal: attempt to access non-existent grid"`
(modelled by `none`); otherwise the stored grid is returned. -/
def get_grid (gh : GridHierarchy) (ilevel : ℕ) : Option MeshvarBnd :=
  if ilevel ≥ gh.m_pgrids.length then none
  else some (gh.m_pgrids.getD ilevel default)

/-- The cross-level consistency invariant of the spec for the grid store:
the absolute offset of a level (`m_xoffabs` …) is twice the parent's
absolute offset plus twice the level's parent-relative offset (the
`m_offx` … of the level grid). -/
def consistentAt (gh : GridHierarchy) (L d : ℕ) : Prop :=
  gh.offset_abs L d = 2 * gh.offset_abs (L - 1) d + 2 * gh.offset L d

/-- `GridHierarchy::create_base_hierarchy(lmax)`: levels `0 … lmax`, each a
zero-initialized full-domain cube of side `n = 2^i` (the loop doubles `n`
starting from 1) with zero offsets, and `m_levelmin = lmax`. -/
def create_base_hierarchy (gh : GridHierarchy) (lmax : ℕ) : GridHierarchy :=
  { m_nbnd := gh.m_nbnd
    m_levelmin := lmax
    m_pgrids := (List.range (lmax + 1)).map fun i =>
      MeshvarBnd.make gh.m_nbnd (2 ^ i) (2 ^ i) (2 ^ i) 0 0 0 fun _ _ _ => 0
    m_xoffabs := List.replicate (lmax + 1) 0
    m_yoffabs := List.replicate (lmax + 1) 0
    m_zoffabs := List.replicate (lmax + 1) 0 }

/-- `GridHierarchy::add_patch(xoff, yoff, zoff, nx, ny, nz)`: pushes a
zeroed grid of logical extent `(nx,ny,nz)` at relative offset
`(xoff,yoff,zoff)` and absolute offsets `2*(back + off)` per dimension. -/
def add_patch (gh : GridHierarchy) (xoff yoff zoff : ℤ) (nx ny nz : ℕ) :
    GridHierarchy :=
  { gh with
    m_pgrids := gh.m_pgrids ++
      [MeshvarBnd.make gh.m_nbnd nx ny nz xoff yoff zoff fun _ _ _ => 0]
    m_xoffabs := gh.m_xoffabs ++ [2 * (gh.m_xoffabs.getLastD 0 + xoff)]
    m_yoffabs := gh.m_yoffabs ++ [2 * (gh.m_yoffabs.getLastD 0 + yoff)]
    m_zoffabs := gh.m_zoffabs ++ [2 * (gh.m_zoffabs.getLastD 0 + zoff)] }

/-- `GridHierarchy::find_new_levelmin()`: the last level `i ≤ levelmax`
whose grid is a full-domain cube of side `2^i` becomes `m_levelmin`
(unchanged if there is none). -/
def find_new_levelmin (gh : GridHierarchy) : GridHierarchy :=
  { gh with
    m_levelmin :=
      (List.range (gh.levelmaxN + 1)).foldl
        (fun lm i =>
          if gh.size i 0 = 2 ^ i ∧ gh.size i 1 = 2 ^ i ∧ gh.size i 2 = 2 ^ i
          then i else lm)
        gh.m_levelmin }

/-- State of the refinement-mask vector `m_ref_masks`: level → cell → value.
The flat `std::vector<short>` of `refinement_mask` is modelled as a total
function on `ℤ` coordinates (in-bounds accesses only are modelled; all
loops of `add_refinement_mask` stay in bounds for even level extents). -/
def MaskState : Type := ℕ → ℤ → ℤ → ℤ → ℤ

/-- The first sweep of `add_refinement_mask` (mesh.hh): every level from
`levelmax()` down to `levelmin()` is reinitialized block-by-block: all
eight cells of the `2×2×2` block with base `(2*(i/2), 2*(j/2), 2*(k/2))`
get `1` if the region generator accepts the block's centre point (or the
level is `levelmin()`), else `-1`.  The centre coordinate `xq` is an
injective function of the level and the block base, so the external
`query_point` collaborator is abstracted as a predicate on those.
Levels outside `[levelmin, levelmax]` keep the previous mask state. -/
def mask_phase1 (gh : GridHierarchy) (query : ℕ → ℤ → ℤ → ℤ → Bool)
    (s0 : MaskState) : MaskState := fun L i j k =>
  if gh.m_levelmin ≤ L ∧ L ≤ gh.levelmaxN then
    (if query L (2 * (i / 2)) (2 * (j / 2)) (2 * (k / 2)) ∨ L = gh.m_levelmin
     then 1 else -1)
  else s0 L i j k

/-- The `fine_is_flagged` computation of `add_refinement_mask` for coarse
cell `(i,j,k)` of level `P`: the base child index is
`ifine = 2*(i,j,k) - 2*offset(P+1,·)`; it must lie inside level `P+1`'s
extents, and then one of the eight children must carry a positive mask. -/
def fine_flagged (gh : GridHierarchy) (s : MaskState) (P : ℕ)
    (i j k : ℤ) : Prop :=
  let f0 := 2 * i - 2 * gh.offset (P + 1) 0
  let f1 := 2 * j - 2 * gh.offset (P + 1) 1
  let f2 := 2 * k - 2 * gh.offset (P + 1) 2
  (0 ≤ f0 ∧ f0 < (gh.size (P + 1) 0 : ℤ) ∧
   0 ≤ f1 ∧ f1 < (gh.size (P + 1) 1 : ℤ) ∧
   0 ≤ f2 ∧ f2 < (gh.size (P + 1) 2 : ℤ)) ∧
  ∃ a ∈ Finset.range 2, ∃ b ∈ Finset.range 2, ∃ c ∈ Finset.range 2,
    0 < s (P + 1) (f0 + a) (f1 + b) (f2 + c)

instance (gh : GridHierarchy) (s : MaskState) (P : ℕ) (i j k : ℤ) :
    Decidable (fine_flagged gh s P i j k) := by
  unfold fine_flagged; infer_instance

/-- One iteration of the second sweep of `add_refinement_mask` at level
`P`: every coarse cell of level `P` whose `fine_is_flagged` test succeeds
is set to `2`, and its eight child cells on level `P+1` are set to `1`.
The written child blocks of distinct coarse cells are disjoint and the
flag of a cell only reads its own block, so the loop body is rendered as
a simultaneous (pointwise) update.  A cell of level `P+1` is inside the
written block of coarse cell `(pi,pj,pk)` iff `pi = (i + 2*offset)/2`
(floor division) etc. and that parent is an in-range flagged cell. -/
def mask_pass (gh : GridHierarchy) (s : MaskState) (P : ℕ) : MaskState :=
  fun L i j k =>
    if L = P then
      (if (0 ≤ i ∧ i < (gh.size P 0 : ℤ) ∧ 0 ≤ j ∧ j < (gh.size P 1 : ℤ) ∧
           0 ≤ k ∧ k < (gh.size P 2 : ℤ)) ∧ fine_flagged gh s P i j k
       then 2 else s L i j k)
    else if L = P + 1 then
      (let pi := (i + 2 * gh.offset (P + 1) 0) / 2
       let pj := (j + 2 * gh.offset (P + 1) 1) / 2
       let pk := (k + 2 * gh.offset (P + 1) 2) / 2
       if (0 ≤ pi ∧ pi < (gh.size P 0 : ℤ) ∧ 0 ≤ pj ∧ pj < (gh.size P 1 : ℤ) ∧
           0 ≤ pk ∧ pk < (gh.size P 2 : ℤ)) ∧ fine_flagged gh s P pi pj pk
       then 1 else s L i j k)
    else s L i j k

/-- `GridHierarchy::add_refinement_mask(shift)` (mesh.hh): when
`levelmin() = levelmax()` nothing is built and the mask state is left
untouched; otherwise the per-level reinitialization (`mask_phase1`) runs
first, then the bottom-up flag propagation runs for
`ilevel = levelmin(), …, levelmax()-1` in order. -/
def add_refinement_mask (gh : GridHierarchy)
    (query : ℕ → ℤ → ℤ → ℤ → Bool) (s0 : MaskState) : MaskState :=
  if gh.m_levelmin = gh.levelmaxN then s0
  else
    (List.range' gh.m_levelmin (gh.levelmaxN - gh.m_levelmin)).foldl
      (mask_pass gh) (mask_phase1 gh query s0)

/-- The mask state after the first `n` iterations of the bottom-up sweep
of `add_refinement_mask` (passes at levels `levelmin(), …, levelmin()+n-1`
applied to the phase-1 state). -/
def maskF (gh : GridHierarchy) (query : ℕ → ℤ → ℤ → ℤ → Bool)
    (s0 : MaskState) (n : ℕ) : MaskState :=
  (List.range' gh.m_levelmin n).foldl (mask_pass gh) (mask_phase1 gh query s0)

end GridHierarchy

/-- Sum of a data function over the logical index box `[0,nx)×[0,ny)×[0,nz)`
(the triple loops of `cut_patch` / `normalize_density`). -/
def gridSum (f : ℤ → ℤ → ℤ → ℚ) (nx ny nz : ℕ) : ℚ :=
  ∑ i ∈ Finset.range nx, ∑ j ∈ Finset.range ny, ∑ k ∈ Finset.range nz,
    f (i : ℤ) (j : ℤ) (k : ℤ)

namespace GridHierarchy

/-- The fresh grid `mnew` built by `GridHierarchy::cut_patch` (mesh.hh):
extent `(nx,ny,nz)`, offsets `offset + d/2` (the deltas are even, so `/`
is exact halving), and data copied from the old level grid at indices
shifted by the deltas over the logical box (cells outside it are left
uninitialized by the source and modelled as 0; they are never read). -/
def cut_copy (gh : GridHierarchy) (ilevel : ℕ) (dx dy dz : ℤ)
    (nx ny nz : ℕ) : MeshvarBnd :=
  let old := gh.m_pgrids.getD ilevel default
  MeshvarBnd.make gh.m_nbnd nx ny nz
    (old.m_offx + dx / 2) (old.m_offy + dy / 2) (old.m_offz + dz / 2)
    (fun i j k =>
      if 0 ≤ i ∧ i < (nx : ℤ) ∧ 0 ≤ j ∧ j < (ny : ℤ) ∧ 0 ≤ k ∧ k < (nz : ℤ)
      then old.data (i + dx) (j + dy) (k + dz) else 0)

/-- The grid-replacement phase of `cut_patch`: `mnew` replaces the level
grid, and — when a finer level exists (`ilevel < levelmax()`) — the finer
level's relative offsets lose the deltas. -/
def cut_replace (gh : GridHierarchy) (ilevel : ℕ) (dx dy dz : ℤ)
    (nx ny nz : ℕ) : List MeshvarBnd :=
  let grids1 := gh.m_pgrids.set ilevel (cut_copy gh ilevel dx dy dz nx ny nz)
  if ilevel + 1 < grids1.length then
    let finer := grids1.getD (ilevel + 1) default
    grids1.set (ilevel + 1)
      { finer with m_offx := finer.m_offx - dx, m_offy := finer.m_offy - dy,
                   m_offz := finer.m_offz - dz }
  else grids1

/-- The correction constant `coarsesum/coarsecount - finesum/finecount` of
`cut_patch`: `finesum` accumulates the copied patch data over the logical
box; `coarsesum` accumulates the coarser level over the half-extent
footprint starting at the patch's new relative offset.  (The source reads
the coarser grid after the replacement, which leaves level `ilevel-1`
untouched, so the pre-call grid is read here; the constant is only used
when `levelmin() < ilevel`, hence `ilevel - 1` is a genuine coarser
level.) -/
def cut_corr (gh : GridHierarchy) (ilevel : ℕ) (dx dy dz : ℤ)
    (nx ny nz : ℕ) : ℚ :=
  let old := gh.m_pgrids.getD ilevel default
  let coarse := gh.m_pgrids.getD (ilevel - 1) default
  let dxtop := old.m_offx + dx / 2
  let dytop := old.m_offy + dy / 2
  let dztop := old.m_offz + dz / 2
  let finesum := gridSum (cut_copy gh ilevel dx dy dz nx ny nz).data nx ny nz
  let coarsesum := gridSum
    (fun i j k => coarse.data (i + dxtop) (j + dytop) (k + dztop))
    (nx / 2) (ny / 2) (nz / 2)
  coarsesum / (((nx / 2) * (ny / 2) * (nz / 2) : ℕ) : ℚ) -
    finesum / ((nx * ny * nz : ℕ) : ℚ)

/-- The body of `GridHierarchy::cut_patch` after the parity assertion
(mesh.hh).  `dx/dy/dz` are the (already even) absolute-offset deltas.
In source order: build `mnew` (`cut_copy`) and the fine sum; replace the
level grid and shift the finer level (`cut_replace`); update the absolute
offsets; then the mean-enforcement branch (which reads `levelmin()`
*before* `find_new_levelmin()` runs): when `enforce_coarse_mean`, every
patch cell gains the correction constant; otherwise every coarser-level
cell of the footprint loses it; finally `find_new_levelmin()`. -/
def cut_patch_run (gh : GridHierarchy) (ilevel : ℕ) (dx dy dz : ℤ)
    (nx ny nz : ℕ) (enforce_coarse_mean : Bool) : GridHierarchy :=
  let mnew := cut_copy gh ilevel dx dy dz nx ny nz
  let grids2 := cut_replace gh ilevel dx dy dz nx ny nz
  let xoffabs1 := gh.m_xoffabs.set ilevel (gh.m_xoffabs.getD ilevel 0 + dx)
  let yoffabs1 := gh.m_yoffabs.set ilevel (gh.m_yoffabs.getD ilevel 0 + dy)
  let zoffabs1 := gh.m_zoffabs.set ilevel (gh.m_zoffabs.getD ilevel 0 + dz)
  let coarse := gh.m_pgrids.getD (ilevel - 1) default
  let corr := cut_corr gh ilevel dx dy dz nx ny nz
  let grids3 :=
    if enforce_coarse_mean then
      if ilevel > gh.m_levelmin then
        -- `(*mnew)(i,j,k) += (coarsesum - finesum)` over the logical box
        let shifted : ℤ → ℤ → ℤ → ℚ := fun i j k =>
          mnew.data i j k +
            (if 0 ≤ i ∧ i < (nx : ℤ) ∧ 0 ≤ j ∧ j < (ny : ℤ) ∧
                0 ≤ k ∧ k < (nz : ℤ) then corr else 0)
        grids2.set ilevel { mnew with data := shifted }
      else grids2
    else
      if ilevel > gh.m_levelmin then
        -- `(*m_pgrids[ilevel-1])(i+ox,j+oy,k+oz) -= (coarsesum - finesum)`
        let cshift : ℤ → ℤ → ℤ → ℚ := fun i j k =>
          coarse.data i j k -
            (if 0 ≤ i - mnew.m_offx ∧ i - mnew.m_offx < ((nx / 2 : ℕ) : ℤ) ∧
                0 ≤ j - mnew.m_offy ∧ j - mnew.m_offy < ((ny / 2 : ℕ) : ℤ) ∧
                0 ≤ k - mnew.m_offz ∧ k - mnew.m_offz < ((nz / 2 : ℕ) : ℤ)
             then corr else 0)
        grids2.set (ilevel - 1) { coarse with data := cshift }
      else grids2
  GridHierarchy.find_new_levelmin
    { m_nbnd := gh.m_nbnd, m_levelmin := gh.m_levelmin, m_pgrids := grids3,
      m_xoffabs := xoffabs1, m_yoffabs := yoffabs1, m_zoffabs := zoffabs1 }

/-- `GridHierarchy::cut_patch(ilevel, xoff, yoff, zoff, nx, ny, nz,
enforce_coarse_mean)` (mesh.hh).  The deltas `dx = xoff - m_xoffabs[ilevel]`
etc. are computed in C++ in `unsigned` arithmetic; their parity mod `2^32`
equals the parity of the exact difference, so the
`assert(dx%2==0 && dy%2==0 && dz%2==0)` fires exactly when some exact
difference is odd (modelled as `none`). -/
def cut_patch (gh : GridHierarchy) (ilevel : ℕ) (xoff yoff zoff : ℤ)
    (nx ny nz : ℕ) (enforce_coarse_mean : Bool) : Option GridHierarchy :=
  let dx := xoff - gh.m_xoffabs.getD ilevel 0
  let dy := yoff - gh.m_yoffabs.getD ilevel 0
  let dz := zoff - gh.m_zoffabs.getD ilevel 0
  if dx % 2 = 0 ∧ dy % 2 = 0 ∧ dz % 2 = 0 then
    some (cut_patch_run gh ilevel dx dy dz nx ny nz enforce_coarse_mean)
  else none

/-- `GridHierarchy::is_consistent(gh)`: equal `levelmax()`, equal
`levelmin()`, and, for every level from `levelmin()` to `levelmax()`,
equal `size(i,j)` and `offset(i,j)` for `j = 0,1,2`.  (`this` is the
left operand; the loop bound `levelmax()` has already been checked equal
for both.) -/
def is_consistent (a gh : GridHierarchy) : Bool :=
  decide (a.levelmaxZ = gh.levelmaxZ) &&
  decide (a.m_levelmin = gh.m_levelmin) &&
  (List.range' a.m_levelmin (a.m_pgrids.length - a.m_levelmin)).all fun i =>
    [0, 1, 2].all fun j =>
      decide (a.size i j = gh.size i j) && decide (a.offset i j = gh.offset i j)

/-- `GridHierarchy::operator=(gh)` (mesh.hh).  On an inconsistent source
it silently deallocates its own grids and rebuilds as a full copy of
`gh` (grids, `levelmin`, `nbnd`, absolute offsets); on a consistent
source it assigns every grid element-wise via `MeshvarBnd::operator=`,
which copies raw extents and the flat data block but leaves the target's
offsets and ghost width unchanged.  (The refinement masks, appended
before the consistency test, are not part of the modelled state.) -/
def hier_assign (a gh : GridHierarchy) : GridHierarchy :=
  if ¬ is_consistent a gh then
    { m_nbnd := gh.m_nbnd, m_levelmin := gh.m_levelmin,
      m_pgrids := gh.m_pgrids, m_xoffabs := gh.m_xoffabs,
      m_yoffabs := gh.m_yoffabs, m_zoffabs := gh.m_zoffabs }
  else
    -- `MeshvarBnd::operator=`: raw extents and data come from the source,
    -- offsets and `m_nbnd` stay.  (The flat copy is the identity on
    -- logical indices whenever the raw extents agree componentwise, which
    -- is the case for the consistent hierarchies this code produces.)
    let cp : MeshvarBnd → MeshvarBnd → MeshvarBnd := fun ga gb =>
      { ga with m_nx := gb.m_nx, m_ny := gb.m_ny, m_nz := gb.m_nz,
                data := gb.data }
    { a with m_pgrids := a.m_pgrids.zipWith cp gh.m_pgrids }

/-- `GridHierarchy::operator+=(gh)` (mesh.hh): on an inconsistent operand
it throws `"attempt to operate on incompatible data"` (modelled `none`);
otherwise every level is added element-wise.  (`Meshvar::operator+=`'s
inner size-product check never fires once `is_consistent` holds for
hierarchies with equal ghost widths; the model adds at equal logical
indices.) -/
def hier_addAssign (a gh : GridHierarchy) : Option GridHierarchy :=
  if ¬ is_consistent a gh then none
  else
    let addg : MeshvarBnd → MeshvarBnd → MeshvarBnd := fun ga gb =>
      { ga with data := fun i j k => ga.data i j k + gb.data i j k }
    some { a with m_pgrids := a.m_pgrids.zipWith addg gh.m_pgrids }

end GridHierarchy

/-- `normalize_density(delta)` (densities.cc): `sum` is the mean of the
`levelmin` grid over its logical cells; that constant is subtracted from
the logical cells of every level `levelmin ≤ i ≤ levelmax`.  (The run
aborts in `get_grid` if `levelmin` exceeds `levelmax`; theorems assume a
well-formed hierarchy.) -/
def normalize_density (delta : GridHierarchy) : GridHierarchy :=
  let lmin := delta.m_levelmin
  let nx := delta.size lmin 0
  let ny := delta.size lmin 1
  let nz := delta.size lmin 2
  let g0 := delta.m_pgrids.getD lmin default
  let sum := gridSum g0.data nx ny nz / ((nx * ny * nz : ℕ) : ℚ)
  { delta with m_pgrids := delta.m_pgrids.mapIdx fun i g =>
      if lmin ≤ i then
        { g with data := fun x y z =>
            g.data x y z -
              (if 0 ≤ x ∧ x < (g.size 0 : ℤ) ∧ 0 ≤ y ∧ y < (g.size 1 : ℤ) ∧
                  0 ≤ z ∧ z < (g.size 2 : ℤ) then sum else 0) }
      else g }

/-- Entry/validation phase of `fft_coarsen(v, V)` (densities.cc): the
routine reads the fine and coarse extents, derives the padded buffer
lengths `nxf*nyf*(nzf+2)` / `nxF*nyF*(nzF+2)` and the normalization
`1/(nxF*nyF*nzF)`, and proceeds straight to the transforms — its source
contains no precondition check or assertion of any kind, so no input
makes it signal an error. -/
def fft_coarsen_entry (nxf nyf nzf nxF nyF nzF : ℕ) :
    Option (ℕ × ℕ × ℚ) :=
  some (nxf * nyf * (nzf + 2), nxF * nyF * (nzF + 2),
    1 / ((nxF * nyF * nzF : ℕ) : ℚ))

/-- Entry/validation phase of `fft_interpolate(V, v, margin, from_basegrid)`
(densities.cc): the offsets are first adjusted by half the margins
(inward for `from_basegrid`, outward otherwise), then
`assert(nxf%2==0 && nyf%2==0 && nzf%2==0)` guards the halving that
produces the coarse extents (modelled as `none` when it fires). -/
def fft_interpolate_entry (oxf oyf ozf : ℤ) (nxf nyf nzf : ℕ)
    (mxf myf mzf : ℕ) (from_basegrid : Bool) :
    Option (ℤ × ℤ × ℤ × ℕ × ℕ × ℕ) :=
  let ox := if from_basegrid then oxf - (mxf / 2 : ℕ) else oxf + (mxf / 2 : ℕ)
  let oy := if from_basegrid then oyf - (myf / 2 : ℕ) else oyf + (myf / 2 : ℕ)
  let oz := if from_basegrid then ozf - (mzf / 2 : ℕ) else ozf + (mzf / 2 : ℕ)
  if nxf % 2 = 0 ∧ nyf % 2 = 0 ∧ nzf % 2 = 0 then
    some (ox, oy, oz, nxf / 2, nyf / 2, nzf / 2)
  else none

/-- Model of `refinement_hierarchy` (mesh.hh).  `offsets_`, `absoffsets_`
and `len_` are vectors of `index3_t` (signed `ptrdiff_t` triples) of
length `levelmax_+1`, modelled as functions `level → dim → ℤ`.  The
derived floating-point fields `x0_ … zl_` are write-only summaries never
read by the modelled operations and are omitted. -/
structure RefinementHierarchy where
  levelmin_ : ℕ
  levelmax_ : ℕ
  offsets_ : ℕ → ℕ → ℤ
  absoffsets_ : ℕ → ℕ → ℤ
  len_ : ℕ → ℕ → ℤ

namespace RefinementHierarchy

/-- The backward pass of the `refinement_hierarchy` constructor (mesh.hh):
`offsets_[L] = absoffsets_[L]/2 - absoffsets_[L-1]` for
`levelmin_ < L ≤ levelmax_` (`index_t` division truncates towards zero:
`Int.tdiv`); entries outside that range are untouched. -/
def resolve_off (rh : RefinementHierarchy) : ℕ → ℕ → ℤ := fun L d =>
  if rh.levelmin_ < L ∧ L ≤ rh.levelmax_ then
    Int.tdiv (rh.absoffsets_ L d) 2 - rh.absoffsets_ (L - 1) d
  else rh.offsets_ L d

/-- The forward sweep of the `refinement_hierarchy` constructor:
`absoffsets_[L] = 2*absoffsets_[L-1] + 2*offsets_[L]` for
`levelmin_ < L ≤ levelmax_`, rebuilding the absolute offsets from the
relative ones level by level. -/
def resolve_sweep (rh : RefinementHierarchy) : ℕ → ℕ → ℤ
  | 0, d => rh.absoffsets_ 0 d
  | L + 1, d =>
    if rh.levelmin_ < L + 1 ∧ L + 1 ≤ rh.levelmax_ then
      2 * resolve_sweep rh L d + 2 * resolve_off rh (L + 1) d
    else rh.absoffsets_ (L + 1) d

/-- The final bookkeeping of the `refinement_hierarchy` constructor
(mesh.hh, the two loops after the per-level boxes are fixed): first the
backward pass computing relative offsets, then the forward sweep that
guarantees the cross-level consistency invariant. -/
def resolve_offsets (rh : RefinementHierarchy) : RefinementHierarchy :=
  { rh with offsets_ := resolve_off rh, absoffsets_ := resolve_sweep rh }

/-- The cross-level consistency invariant of the spec for the geometry
record: the absolute offset of a level is twice the parent's absolute
offset plus twice the level's relative offset. -/
def consistentAt (rh : RefinementHierarchy) (L d : ℕ) : Prop :=
  rh.absoffsets_ L d = 2 * rh.absoffsets_ (L - 1) d + 2 * rh.offsets_ L d

instance (rh : RefinementHierarchy) (L d : ℕ) :
    Decidable (consistentAt rh L d) := by
  unfold consistentAt; infer_instance

/-- `refinement_hierarchy::find_new_levelmin()`: the last level `i` up to
`levelmax_` with zero absolute offset and a full `2^i` cube becomes the
new `levelmin_` (unchanged when there is none). -/
def find_new_levelmin (rh : RefinementHierarchy) : RefinementHierarchy :=
  { rh with
    levelmin_ :=
      (List.range (rh.levelmax_ + 1)).foldl
        (fun lm i =>
          if [0, 1, 2].all (fun d => decide (rh.absoffsets_ i d = 0)) &&
             [0, 1, 2].all (fun d => decide (rh.len_ i d = 2 ^ i))
          then i else lm)
        rh.levelmin_ }

/-- `refinement_hierarchy::adjust_level(ilevel, nx, ny, nz, oax, oay, oaz)`
(mesh.hh): with `d· = absoffsets_[ilevel][·] - oa·` (signed `int`s), the
level's relative offset loses `d·/2` (truncating division), its absolute
offset and extents are overwritten, and — when a finer level exists —
the finer level's relative offset gains `d·`; finally
`find_new_levelmin()` runs.  There is no parity check on `d·`. -/
def adjust_level (rh : RefinementHierarchy) (ilevel : ℕ)
    (nx ny nz : ℤ) (oax oay oaz : ℤ) : RefinementHierarchy :=
  let dx := rh.absoffsets_ ilevel 0 - oax
  let dy := rh.absoffsets_ ilevel 1 - oay
  let dz := rh.absoffsets_ ilevel 2 - oaz
  let dvec : ℕ → ℤ := fun d => if d = 0 then dx else if d = 1 then dy else dz
  let oavec : ℕ → ℤ := fun d => if d = 0 then oax else if d = 1 then oay else oaz
  let nvec : ℕ → ℤ := fun d => if d = 0 then nx else if d = 1 then ny else nz
  let off' : ℕ → ℕ → ℤ := fun L d =>
    if L = ilevel then rh.offsets_ L d - Int.tdiv (dvec d) 2
    else if L = ilevel + 1 ∧ ilevel < rh.levelmax_ then rh.offsets_ L d + dvec d
    else rh.offsets_ L d
  let abs' : ℕ → ℕ → ℤ := fun L d =>
    if L = ilevel then oavec d else rh.absoffsets_ L d
  let len' : ℕ → ℕ → ℤ := fun L d =>
    if L = ilevel then nvec d else rh.len_ L d
  find_new_levelmin { rh with offsets_ := off', absoffsets_ := abs', len_ := len' }

end RefinementHierarchy

/-- Dimension selector matching the source's `(dx, dy, dz)` triples: the
x-component for dimension 0, the y-component for 1, the z-component
otherwise (exactly how `offset`/`offset_abs` select components). -/
def dvec3 (dx dy dz : ℤ) (d : ℕ) : ℤ :=
  if d = 0 then dx else if d = 1 then dy else dz

/-- Two-level grid hierarchy used by the C1 witness (all offsets zero,
`levelmin = 0`). -/
def ghC1w : GridHierarchy :=
  ⟨0, 0,
    [MeshvarBnd.make 0 2 2 2 0 0 0 fun _ _ _ => 0,
     MeshvarBnd.make 0 4 4 4 0 0 0 fun _ _ _ => 0],
    [0, 0], [0, 0], [0, 0]⟩

/-- Geometry record used by the C1 counterexample: a two-level hierarchy
(`levelmin_ = 0`, `levelmax_ = 1`) with zero offsets everywhere, level 0
a full single-cell domain and level 1 a non-covering box. -/
def rh0C1 : RefinementHierarchy :=
  ⟨0, 1, fun _ _ => 0, fun _ _ => 0, fun L _ => if L = 0 then 1 else 2⟩

/-- The base hierarchy used by the C5 witness (levels `0 … 8`, so the
finest level before the patch is 8 and the patch becomes level 9). -/
def ghBase8 : GridHierarchy :=
  GridHierarchy.create_base_hierarchy ⟨1, 0, [], [], [], []⟩ 8

/-- Two-level hierarchy used by the C7 witness: `levelmin = 1`, the
coarsest level is the 2×2×2 grid with a single nonzero cell of value 8
(mean 1). -/
def ghC7 : GridHierarchy :=
  ⟨0, 1,
    [MeshvarBnd.make 0 1 1 1 0 0 0 fun _ _ _ => 0,
     MeshvarBnd.make 0 2 2 2 0 0 0 fun i j k =>
       if i = 0 ∧ j = 0 ∧ k = 0 then 8 else 0],
    [0, 0], [0, 0], [0, 0]⟩

/-- Two-level hierarchy used by the C3 witness: the coarse full-domain
level holds constant 3, the refinement level constant 1, `levelmin = 0`. -/
def ghC3 : GridHierarchy :=
  ⟨0, 0,
    [MeshvarBnd.make 0 2 2 2 0 0 0 fun _ _ _ => 3,
     MeshvarBnd.make 0 4 4 4 0 0 0 fun _ _ _ => 1],
    [0, 0], [0, 0], [0, 0]⟩

/-- Four-level hierarchy exercising the sequencing of the bottom-up mask
sweep of `add_refinement_mask`: `levelmin = 1`, `levelmax = 3`, levels 1-3
of extent 2 in every dimension with zero offsets (level 0 is a
sub-`levelmin` placeholder of extent 1). -/
def cexGH : GridHierarchy :=
  ⟨0, 1,
    [MeshvarBnd.make 0 1 1 1 0 0 0 fun _ _ _ => 0,
     MeshvarBnd.make 0 2 2 2 0 0 0 fun _ _ _ => 0,
     MeshvarBnd.make 0 2 2 2 0 0 0 fun _ _ _ => 0,
     MeshvarBnd.make 0 2 2 2 0 0 0 fun _ _ _ => 0],
    [0, 0, 0, 0], [0, 0, 0, 0], [0, 0, 0, 0]⟩

/-- Region query accepting exactly the cells of level 3: the region is
seen only by the finest level, so levels 1 and 2 get `-1` in phase 1 and
level 2 is promoted to `2` only by the pass *after* the one that scans
level 1. -/
def cexQuery : ℕ → ℤ → ℤ → ℤ → Bool := fun L _ _ _ => decide (L = 3)

/-- Arbitrary pre-call mask state (every level in range is reinitialized
by the phase-1 sweep). -/
def cexS0 : GridHierarchy.MaskState := fun _ _ _ _ => 0

/-! ## Helper lemmas about box sums -/

@[simp] theorem MeshvarBnd.size_make (nbnd nx ny nz : ℕ) (ox oy oz : ℤ)
    (d) (dim : ℕ) :
    (MeshvarBnd.make nbnd nx ny nz ox oy oz d).size dim =
      if dim = 0 then nx else if dim = 1 then ny else nz := by
  simp [MeshvarBnd.make, MeshvarBnd.size]

@[simp] theorem MeshvarBnd.offset_make (nbnd nx ny nz : ℕ) (ox oy oz : ℤ)
    (d) (dim : ℕ) :
    (MeshvarBnd.make nbnd nx ny nz ox oy oz d).offset dim =
      if dim = 0 then ox else if dim = 1 then oy else oz := by
  simp [MeshvarBnd.make, MeshvarBnd.offset]

theorem gridSum_congr_box (f g : ℤ → ℤ → ℤ → ℚ) {nx ny nz : ℕ}
    (h : ∀ i j k : ℕ, i < nx → j < ny → k < nz →
      f (i : ℤ) (j : ℤ) (k : ℤ) = g (i : ℤ) (j : ℤ) (k : ℤ)) :
    gridSum f nx ny nz = gridSum g nx ny nz := by
  unfold gridSum
  refine Finset.sum_congr rfl fun i hi => Finset.sum_congr rfl fun j hj =>
    Finset.sum_congr rfl fun k hk => ?_
  exact h i j k (Finset.mem_range.1 hi) (Finset.mem_range.1 hj)
    (Finset.mem_range.1 hk)

theorem gridSum_add (f g : ℤ → ℤ → ℤ → ℚ) (nx ny nz : ℕ) :
    gridSum (fun i j k => f i j k + g i j k) nx ny nz =
      gridSum f nx ny nz + gridSum g nx ny nz := by
  simp [gridSum, Finset.sum_add_distrib]

theorem gridSum_sub (f g : ℤ → ℤ → ℤ → ℚ) (nx ny nz : ℕ) :
    gridSum (fun i j k => f i j k - g i j k) nx ny nz =
      gridSum f nx ny nz - gridSum g nx ny nz := by
  simp [gridSum, Finset.sum_sub_distrib]

theorem gridSum_const (c : ℚ) (nx ny nz : ℕ) :
    gridSum (fun _ _ _ => c) nx ny nz = ((nx * ny * nz : ℕ) : ℚ) * c := by
  simp [gridSum, Finset.sum_const, Finset.card_range, mul_assoc]

/-- The in-box guard used by the data-update loops is satisfied on every
summand of `gridSum`. -/
theorem gridSum_box_ite (c : ℚ) (nx ny nz : ℕ) :
    gridSum
      (fun i j k =>
        if 0 ≤ i ∧ i < (nx : ℤ) ∧ 0 ≤ j ∧ j < (ny : ℤ) ∧ 0 ≤ k ∧ k < (nz : ℤ)
        then c else 0) nx ny nz = ((nx * ny * nz : ℕ) : ℚ) * c := by
  have h : ∀ i j k : ℕ, i < nx → j < ny → k < nz →
      (if 0 ≤ (i : ℤ) ∧ (i : ℤ) < (nx : ℤ) ∧ 0 ≤ (j : ℤ) ∧ (j : ℤ) < (ny : ℤ) ∧
          0 ≤ (k : ℤ) ∧ (k : ℤ) < (nz : ℤ) then c else (0 : ℚ)) = c := by
    intro i j k hi hj hk
    have hb : (0 : ℤ) ≤ (i : ℤ) ∧ (i : ℤ) < (nx : ℤ) ∧ (0 : ℤ) ≤ (j : ℤ) ∧
        (j : ℤ) < (ny : ℤ) ∧ (0 : ℤ) ≤ (k : ℤ) ∧ (k : ℤ) < (nz : ℤ) := by
      refine ⟨Int.ofNat_nonneg i, ?_, Int.ofNat_nonneg j, ?_,
        Int.ofNat_nonneg k, ?_⟩ <;> exact_mod_cast ‹_›
    simp [hb]
  rw [gridSum_congr_box _ (fun _ _ _ => c) h, gridSum_const]

theorem getD_set_self {α : Type} (l : List α) (n : ℕ) (a d : α)
    (h : n < l.length) : (l.set n a).getD n d = a := by
  rw [List.getD_eq_getElem?_getD, List.getElem?_set_self']
  simp [List.getElem?_eq_getElem h]

theorem getD_set_ne {α : Type} (l : List α) {n m : ℕ} (a d : α)
    (h : n ≠ m) : (l.set n a).getD m d = l.getD m d := by
  rw [List.getD_eq_getElem?_getD, List.getD_eq_getElem?_getD,
    List.getElem?_set_ne h]

theorem getD_mapIdx {α : Type} (l : List α) (f : ℕ → α → α) (n : ℕ)
    (h : n < l.length) (d : α) :
    (l.mapIdx f).getD n d = f n (l.getD n d) := by
  have h' : n < (l.mapIdx f).length := by simpa [List.length_mapIdx] using h
  rw [List.getD_eq_getElem?_getD, List.getD_eq_getElem?_getD,
    List.getElem?_eq_getElem h', List.getElem?_eq_getElem h]
  simp [List.get_mapIdx l f n h]

/-! ## Claims -/

/-- **C4.** For every `lmax ≥ 0`, after `create_base_hierarchy(lmax)`,
`levelmin()` returns `lmax`, and every level `0 ≤ i ≤ lmax` has logical
extent `2^i` in every dimension (the ghost margin is excluded by
`MeshvarBnd::size`). -/
theorem C4_create_base_hierarchy (gh : Music.GridHierarchy) (lmax : ℕ) :
    (gh.create_base_hierarchy lmax).levelmin = lmax ∧
    ∀ i ≤ lmax, ∀ d : ℕ, (gh.create_base_hierarchy lmax).size i d = 2 ^ i := by
  constructor
  · rfl
  · intro i hi d
    have hlen : i < lmax + 1 := Nat.lt_succ_of_le hi
    simp [GridHierarchy.size, GridHierarchy.create_base_hierarchy,
      List.getD_eq_getElem?_getD, List.getElem?_map, List.getElem?_range, hlen,
      MeshvarBnd.size, MeshvarBnd.make]

/-- Witness for C4 at `lmax = 2`, level 1. -/
theorem C4_create_base_hierarchy_witness :
    (GridHierarchy.create_base_hierarchy ⟨1, 0, [], [], [], []⟩ 2).levelmin = 2 ∧
    (GridHierarchy.create_base_hierarchy ⟨1, 0, [], [], [], []⟩ 2).size 1 0 = 2 ^ 1 := by
  obtain ⟨h1, h2⟩ := C4_create_base_hierarchy ⟨1, 0, [], [], [], []⟩ 2
  exact ⟨h1, h2 1 (by decide) 0⟩

/-- **C8.** `get_grid(ilevel)` raises the non-existent-grid error (and
returns no grid) whenever `ilevel` is at or beyond the number of stored
levels, and returns the stored grid for in-range levels. -/
theorem C8_get_grid (gh : Music.GridHierarchy) (ilevel : ℕ) :
    (gh.m_pgrids.length ≤ ilevel → gh.get_grid ilevel = none) ∧
    (∀ h : ilevel < gh.m_pgrids.length,
      gh.get_grid ilevel = some (gh.m_pgrids.get ⟨ilevel, h⟩)) := by
  constructor
  · intro h
    simp [GridHierarchy.get_grid, h]
  · intro h
    simp [GridHierarchy.get_grid, Nat.not_le.2 h, Nat.not_lt.2,
      List.getD_eq_getElem?_getD, List.getElem?_eq_getElem h]

/-- Witness for C8 on a one-level hierarchy: level 5 errors, level 0
returns a grid. -/
theorem C8_get_grid_witness :
    (GridHierarchy.get_grid ⟨0, 0, [default], [0], [0], [0]⟩ 5 = none) ∧
    (GridHierarchy.get_grid ⟨0, 0, [default], [0], [0], [0]⟩ 0).isSome = true := by
  refine ⟨(C8_get_grid ⟨0, 0, [default], [0], [0], [0]⟩ 5).1 (by decide), ?_⟩
  rw [(C8_get_grid ⟨0, 0, [default], [0], [0], [0]⟩ 0).2 (by decide)]
  rfl

/-- **C9.** `cut_patch` asserts that the difference between each requested
absolute offset and the level's current absolute offset is even
(the difference is halved to place the new patch relative to its parent);
the assertion fires iff some difference is odd, so under the
even-difference precondition it is unreachable.  (The C++ differences are
computed in `unsigned` arithmetic, which preserves parity.) -/
theorem C9_cut_patch_parity (gh : Music.GridHierarchy) (ilevel : ℕ)
    (xoff yoff zoff : ℤ) (nx ny nz : ℕ) (b : Bool) :
    gh.cut_patch ilevel xoff yoff zoff nx ny nz b = none ↔
      ¬((xoff - gh.m_xoffabs.getD ilevel 0) % 2 = 0 ∧
        (yoff - gh.m_yoffabs.getD ilevel 0) % 2 = 0 ∧
        (zoff - gh.m_zoffabs.getD ilevel 0) % 2 = 0) := by
  unfold GridHierarchy.cut_patch
  by_cases h : (xoff - gh.m_xoffabs.getD ilevel 0) % 2 = 0 ∧
      (yoff - gh.m_yoffabs.getD ilevel 0) % 2 = 0 ∧
      (zoff - gh.m_zoffabs.getD ilevel 0) % 2 = 0
  · simp [h]
  · simp [h]

/-- **C2 (amended).** The coarse-to-fine interpolation `fft_interpolate`
fails with its fatal precondition assertion exactly when some axis extent
of the fine input is odd; the fine-to-coarse decimation `fft_coarsen`
contains no such precondition check and never raises this error. -/
theorem C2_fft_even_precondition (oxf oyf ozf : ℤ)
    (nxf nyf nzf mxf myf mzf : ℕ) (fb : Bool) (nxF nyF nzF : ℕ) :
    (fft_interpolate_entry oxf oyf ozf nxf nyf nzf mxf myf mzf fb = none ↔
      ¬(nxf % 2 = 0 ∧ nyf % 2 = 0 ∧ nzf % 2 = 0)) ∧
    fft_coarsen_entry nxf nyf nzf nxF nyF nzF ≠ none := by
  constructor
  · unfold fft_interpolate_entry
    by_cases h : nxf % 2 = 0 ∧ nyf % 2 = 0 ∧ nzf % 2 = 0 <;> simp [h]
  · simp [fft_coarsen_entry]

/-- Counterexample to C2 as stated: a fine input with all axis extents
odd (3,3,3) passes through `fft_coarsen` without any fatal precondition
error (its source has no evenness check), contradicting the claim that
both spectral coupler routines fail on odd extents. -/
theorem C2_fft_coarsen_no_check_cex :
    fft_coarsen_entry 3 3 3 2 2 2 ≠ none ∧ ¬((3 : ℕ) % 2 = 0) := by
  exact ⟨by simp [fft_coarsen_entry], by decide⟩

/-- **C5.** `add_patch(xoff, yoff, zoff, nx, ny, nz)` on a hierarchy whose
finest level is `L = length-1` appends a new finest level `L+1` with the
given extents as its logical sizes, the given offsets as its
parent-relative offsets, and absolute offsets
`2*(absolute offset of L + relative offset)` per dimension. -/
theorem C5_add_patch (gh : Music.GridHierarchy) (xoff yoff zoff : ℤ)
    (nx ny nz : ℕ) (hne : gh.m_pgrids ≠ [])
    (hx : gh.m_xoffabs.length = gh.m_pgrids.length)
    (hy : gh.m_yoffabs.length = gh.m_pgrids.length)
    (hz : gh.m_zoffabs.length = gh.m_pgrids.length) :
    (gh.add_patch xoff yoff zoff nx ny nz).levelmaxN = gh.m_pgrids.length ∧
    (gh.add_patch xoff yoff zoff nx ny nz).size gh.m_pgrids.length 0 = nx ∧
    (gh.add_patch xoff yoff zoff nx ny nz).size gh.m_pgrids.length 1 = ny ∧
    (gh.add_patch xoff yoff zoff nx ny nz).size gh.m_pgrids.length 2 = nz ∧
    (gh.add_patch xoff yoff zoff nx ny nz).offset gh.m_pgrids.length 0 = xoff ∧
    (gh.add_patch xoff yoff zoff nx ny nz).offset gh.m_pgrids.length 1 = yoff ∧
    (gh.add_patch xoff yoff zoff nx ny nz).offset gh.m_pgrids.length 2 = zoff ∧
    (gh.add_patch xoff yoff zoff nx ny nz).offset_abs gh.m_pgrids.length 0 =
      2 * (gh.offset_abs (gh.m_pgrids.length - 1) 0 + xoff) ∧
    (gh.add_patch xoff yoff zoff nx ny nz).offset_abs gh.m_pgrids.length 1 =
      2 * (gh.offset_abs (gh.m_pgrids.length - 1) 1 + yoff) ∧
    (gh.add_patch xoff yoff zoff nx ny nz).offset_abs gh.m_pgrids.length 2 =
      2 * (gh.offset_abs (gh.m_pgrids.length - 1) 2 + zoff) := by
  have hxne : gh.m_xoffabs ≠ [] := by
    intro hcon; rw [hcon] at hx; exact hne (List.length_eq_zero.1 hx.symm)
  have hyne : gh.m_yoffabs ≠ [] := by
    intro hcon; rw [hcon] at hy; exact hne (List.length_eq_zero.1 hy.symm)
  have hzne : gh.m_zoffabs ≠ [] := by
    intro hcon; rw [hcon] at hz; exact hne (List.length_eq_zero.1 hz.symm)
  have getD_app : ∀ (l : List ℤ) (v : ℤ), (l ++ [v]).getD l.length 0 = v := by
    intro l v
    simp [List.getD_eq_getElem?_getD, List.getElem?_append_right (Nat.le_refl _)]
  have getLastD_getD : ∀ (l : List ℤ), l ≠ [] → l.getLastD 0 = l.getD (l.length - 1) 0 := by
    intro l hl
    rw [List.getLastD_eq_getLast?, List.getLast?_eq_getElem?,
      List.getD_eq_getElem?_getD]
  have hsz : ∀ d : ℕ,
      (gh.add_patch xoff yoff zoff nx ny nz).size gh.m_pgrids.length d =
        if d = 0 then nx else if d = 1 then ny else nz := by
    intro d
    simp [GridHierarchy.size, GridHierarchy.add_patch,
      List.getD_eq_getElem?_getD, List.getElem?_append_right (Nat.le_refl _)]
  have hoff : ∀ d : ℕ,
      (gh.add_patch xoff yoff zoff nx ny nz).offset gh.m_pgrids.length d =
        if d = 0 then xoff else if d = 1 then yoff else zoff := by
    intro d
    simp [GridHierarchy.offset, GridHierarchy.add_patch,
      List.getD_eq_getElem?_getD, List.getElem?_append_right (Nat.le_refl _)]
  refine ⟨?_, ?_, ?_, ?_, ?_, ?_, ?_, ?_, ?_, ?_⟩
  · simp [GridHierarchy.levelmaxN, GridHierarchy.add_patch]
  · simpa using hsz 0
  · simpa using hsz 1
  · simpa using hsz 2
  · simpa using hoff 0
  · simpa using hoff 1
  · simpa using hoff 2
  · show (gh.m_xoffabs ++ [2 * (gh.m_xoffabs.getLastD 0 + xoff)]).getD
        gh.m_pgrids.length 0 = 2 * (gh.m_xoffabs.getD (gh.m_pgrids.length - 1) 0 + xoff)
    rw [← hx, getD_app, getLastD_getD _ hxne]
  · show (gh.m_yoffabs ++ [2 * (gh.m_yoffabs.getLastD 0 + yoff)]).getD
        gh.m_pgrids.length 0 = 2 * (gh.m_yoffabs.getD (gh.m_pgrids.length - 1) 0 + yoff)
    rw [← hy, getD_app, getLastD_getD _ hyne]
  · show (gh.m_zoffabs ++ [2 * (gh.m_zoffabs.getLastD 0 + zoff)]).getD
        gh.m_pgrids.length 0 = 2 * (gh.m_zoffabs.getD (gh.m_pgrids.length - 1) 0 + zoff)
    rw [← hz, getD_app, getLastD_getD _ hzne]

/-- Witness for C5: the concrete scenario of the spec — a patch of extent
`(64,64,64)` at relative offset `(10,10,10)` on a finest level 8 yields
`get_grid(9)->size(0) == 64` and a level-9 absolute offset of
`2*(level-8 absolute offset) + 2*10`. -/
theorem C5_add_patch_witness :
    (ghBase8.add_patch 10 10 10 64 64 64).size 9 0 = 64 ∧
    (ghBase8.add_patch 10 10 10 64 64 64).offset_abs 9 0 =
      2 * (ghBase8.offset_abs 8 0 + 10) := by
  have h := C5_add_patch ghBase8 10 10 10 64 64 64
    (List.ne_nil_of_length_pos (by decide)) (by decide) (by decide) (by decide)
  exact ⟨h.2.1, h.2.2.2.2.2.2.2.1⟩

/-- **C10.** `GridHierarchy::operator=` never fails on geometry mismatch:
whenever `is_consistent` rejects the pair (different level count, extents
or offsets), it deallocates its own grids and rebuilds itself as a full
copy of the source — grids, `levelmin`, ghost width and absolute offsets
— whereas the element-wise arithmetic operators (`operator+=`) throw a
runtime error on exactly the same mismatch. -/
theorem C10_assign_rebuilds (a b : Music.GridHierarchy)
    (h : GridHierarchy.is_consistent a b = false) :
    (GridHierarchy.hier_assign a b).m_pgrids = b.m_pgrids ∧
    (GridHierarchy.hier_assign a b).m_levelmin = b.m_levelmin ∧
    (GridHierarchy.hier_assign a b).m_nbnd = b.m_nbnd ∧
    (GridHierarchy.hier_assign a b).m_xoffabs = b.m_xoffabs ∧
    (GridHierarchy.hier_assign a b).m_yoffabs = b.m_yoffabs ∧
    (GridHierarchy.hier_assign a b).m_zoffabs = b.m_zoffabs ∧
    GridHierarchy.hier_addAssign a b = none := by
  unfold GridHierarchy.hier_assign GridHierarchy.hier_addAssign
  simp [h]

/-- **C7.** After `normalize_density(delta)`, the mean of the coarsest
level (`levelmin`) over its logical cells is exactly zero (in the exact
rational model of the floating-point arithmetic), and every level of the
hierarchy (`levelmin ≤ i ≤ levelmax`, the level range of the spec's data
model) has each logical cell decremented by the same constant — the
pre-call mean of the coarsest level. -/
theorem C7_normalize_density (gh : Music.GridHierarchy)
    (hlm : gh.m_levelmin < gh.m_pgrids.length)
    (hpos : 0 < gh.size gh.m_levelmin 0 * gh.size gh.m_levelmin 1 *
      gh.size gh.m_levelmin 2) :
    (gridSum ((normalize_density gh).m_pgrids.getD gh.m_levelmin default).data
        (gh.size gh.m_levelmin 0) (gh.size gh.m_levelmin 1)
        (gh.size gh.m_levelmin 2) /
      ((gh.size gh.m_levelmin 0 * gh.size gh.m_levelmin 1 *
        gh.size gh.m_levelmin 2 : ℕ) : ℚ) = 0) ∧
    (∀ i, gh.m_levelmin ≤ i → i < gh.m_pgrids.length →
      ∀ x y z : ℤ, 0 ≤ x → x < (gh.size i 0 : ℤ) → 0 ≤ y →
        y < (gh.size i 1 : ℤ) → 0 ≤ z → z < (gh.size i 2 : ℤ) →
        ((normalize_density gh).m_pgrids.getD i default).data x y z =
          (gh.m_pgrids.getD i default).data x y z -
            gridSum (gh.m_pgrids.getD gh.m_levelmin default).data
              (gh.size gh.m_levelmin 0) (gh.size gh.m_levelmin 1)
              (gh.size gh.m_levelmin 2) /
            ((gh.size gh.m_levelmin 0 * gh.size gh.m_levelmin 1 *
              gh.size gh.m_levelmin 2 : ℕ) : ℚ)) := by
  set lmin := gh.m_levelmin with hlmin
  set nx := gh.size lmin 0
  set ny := gh.size lmin 1
  set nz := gh.size lmin 2
  set g0 := gh.m_pgrids.getD lmin default with hg0
  set s := gridSum g0.data nx ny nz / ((nx * ny * nz : ℕ) : ℚ) with hs
  have hcast : ((nx * ny * nz : ℕ) : ℚ) ≠ 0 := by
    exact_mod_cast Nat.pos_iff_ne_zero.1 hpos
  have key : ∀ i, lmin ≤ i → i < gh.m_pgrids.length →
      (normalize_density gh).m_pgrids.getD i default =
        { gh.m_pgrids.getD i default with
          data := fun x y z =>
            (gh.m_pgrids.getD i default).data x y z -
              (if 0 ≤ x ∧ x < (gh.size i 0 : ℤ) ∧ 0 ≤ y ∧ y < (gh.size i 1 : ℤ) ∧
                  0 ≤ z ∧ z < (gh.size i 2 : ℤ) then s else 0) } := by
    intro i h1 h2
    show (gh.m_pgrids.mapIdx _).getD i default = _
    rw [getD_mapIdx _ _ _ h2]
    simp only [h1, if_pos]
    rfl
  constructor
  · have hb := key lmin le_rfl hlm
    have hsum : gridSum
        (fun x y z => g0.data x y z -
          (if 0 ≤ x ∧ x < (nx : ℤ) ∧ 0 ≤ y ∧ y < (ny : ℤ) ∧
              0 ≤ z ∧ z < (nz : ℤ) then s else 0)) nx ny nz =
        gridSum g0.data nx ny nz - ((nx * ny * nz : ℕ) : ℚ) * s := by
      rw [gridSum_sub, gridSum_box_ite]
    have hdata : ((normalize_density gh).m_pgrids.getD lmin default).data =
        fun x y z => g0.data x y z -
          (if 0 ≤ x ∧ x < (nx : ℤ) ∧ 0 ≤ y ∧ y < (ny : ℤ) ∧
              0 ≤ z ∧ z < (nz : ℤ) then s else 0) := by
      rw [hb]
    rw [hdata, hsum, hs, mul_div_assoc', mul_div_cancel_left₀ _ hcast,
      sub_self, zero_div]
  · intro i h1 h2 x y z hx hx' hy hy' hz hz'
    rw [key i h1 h2]
    simp only [hx, hx', hy, hy', hz, hz', and_self, if_pos, true_and]

/-- Witness for C7: a two-level hierarchy (`levelmin = 1`) whose coarsest
level holds the values `{0,…}` with one cell at 8; after normalization
the coarsest mean vanishes and the level-1 cell `(0,0,0)` is decremented
by the pre-call mean 1. -/
theorem C7_normalize_density_witness :
    (gridSum ((normalize_density ghC7).m_pgrids.getD ghC7.m_levelmin default).data
        (ghC7.size ghC7.m_levelmin 0) (ghC7.size ghC7.m_levelmin 1)
        (ghC7.size ghC7.m_levelmin 2) /
      ((ghC7.size ghC7.m_levelmin 0 * ghC7.size ghC7.m_levelmin 1 *
        ghC7.size ghC7.m_levelmin 2 : ℕ) : ℚ) = 0) ∧
    ((normalize_density ghC7).m_pgrids.getD 1 default).data 0 0 0 =
      (ghC7.m_pgrids.getD 1 default).data 0 0 0 -
        gridSum (ghC7.m_pgrids.getD ghC7.m_levelmin default).data
          (ghC7.size ghC7.m_levelmin 0) (ghC7.size ghC7.m_levelmin 1)
          (ghC7.size ghC7.m_levelmin 2) /
        ((ghC7.size ghC7.m_levelmin 0 * ghC7.size ghC7.m_levelmin 1 *
          ghC7.size ghC7.m_levelmin 2 : ℕ) : ℚ) := by
  have h := C7_normalize_density ghC7 (by decide) (by decide)
  exact ⟨h.1, h.2 1 (by decide) (by decide) 0 0 0 (by decide) (by decide)
    (by decide) (by decide) (by decide) (by decide)⟩

theorem cut_replace_length (gh : Music.GridHierarchy) (ilevel : ℕ)
    (dx dy dz : ℤ) (nx ny nz : ℕ) :
    (GridHierarchy.cut_replace gh ilevel dx dy dz nx ny nz).length =
      gh.m_pgrids.length := by
  unfold GridHierarchy.cut_replace
  by_cases h : ilevel + 1 < gh.m_pgrids.length
  · simp [h, List.length_set]
  · simp [h, List.length_set]

theorem cut_replace_getD_self (gh : Music.GridHierarchy) (ilevel : ℕ)
    (dx dy dz : ℤ) (nx ny nz : ℕ) (hil : ilevel < gh.m_pgrids.length) :
    (GridHierarchy.cut_replace gh ilevel dx dy dz nx ny nz).getD ilevel default =
      GridHierarchy.cut_copy gh ilevel dx dy dz nx ny nz := by
  unfold GridHierarchy.cut_replace
  by_cases h : ilevel + 1 < gh.m_pgrids.length
  · simp only [List.length_set, h, if_pos]
    rw [getD_set_ne _ _ _ (by omega), getD_set_self _ _ _ _ hil]
  · simp only [List.length_set, h, if_false]
    rw [getD_set_self _ _ _ _ hil]

theorem cut_replace_getD_other (gh : Music.GridHierarchy) (ilevel : ℕ)
    (dx dy dz : ℤ) (nx ny nz : ℕ) {m : ℕ} (hm : m ≠ ilevel)
    (hm2 : m ≠ ilevel + 1) :
    (GridHierarchy.cut_replace gh ilevel dx dy dz nx ny nz).getD m default =
      gh.m_pgrids.getD m default := by
  unfold GridHierarchy.cut_replace
  by_cases h : ilevel + 1 < gh.m_pgrids.length
  · simp only [List.length_set, h, if_pos]
    rw [getD_set_ne _ _ _ (Ne.symm hm2), getD_set_ne _ _ _ (Ne.symm hm)]
  · simp only [List.length_set, h, if_false]
    rw [getD_set_ne _ _ _ (Ne.symm hm)]

/-- The grid list of `cut_patch_run`, by branch. -/
theorem cut_patch_run_pgrids_true (gh : Music.GridHierarchy) (ilevel : ℕ)
    (dx dy dz : ℤ) (nx ny nz : ℕ) (hlm : gh.m_levelmin < ilevel) :
    (GridHierarchy.cut_patch_run gh ilevel dx dy dz nx ny nz true).m_pgrids =
      (GridHierarchy.cut_replace gh ilevel dx dy dz nx ny nz).set ilevel
        { GridHierarchy.cut_copy gh ilevel dx dy dz nx ny nz with
          data := fun i j k =>
            (GridHierarchy.cut_copy gh ilevel dx dy dz nx ny nz).data i j k +
              (if 0 ≤ i ∧ i < (nx : ℤ) ∧ 0 ≤ j ∧ j < (ny : ℤ) ∧
                  0 ≤ k ∧ k < (nz : ℤ)
               then GridHierarchy.cut_corr gh ilevel dx dy dz nx ny nz
               else 0) } := by
  unfold GridHierarchy.cut_patch_run
  simp only [GridHierarchy.find_new_levelmin, hlm, if_pos, if_true]

theorem cut_patch_run_pgrids_false (gh : Music.GridHierarchy) (ilevel : ℕ)
    (dx dy dz : ℤ) (nx ny nz : ℕ) (hlm : gh.m_levelmin < ilevel) :
    (GridHierarchy.cut_patch_run gh ilevel dx dy dz nx ny nz false).m_pgrids =
      (GridHierarchy.cut_replace gh ilevel dx dy dz nx ny nz).set (ilevel - 1)
        { gh.m_pgrids.getD (ilevel - 1) default with
          data := fun i j k =>
            (gh.m_pgrids.getD (ilevel - 1) default).data i j k -
              (if 0 ≤ i - (GridHierarchy.cut_copy gh ilevel dx dy dz nx ny nz).m_offx ∧
                  i - (GridHierarchy.cut_copy gh ilevel dx dy dz nx ny nz).m_offx <
                    ((nx / 2 : ℕ) : ℤ) ∧
                  0 ≤ j - (GridHierarchy.cut_copy gh ilevel dx dy dz nx ny nz).m_offy ∧
                  j - (GridHierarchy.cut_copy gh ilevel dx dy dz nx ny nz).m_offy <
                    ((ny / 2 : ℕ) : ℤ) ∧
                  0 ≤ k - (GridHierarchy.cut_copy gh ilevel dx dy dz nx ny nz).m_offz ∧
                  k - (GridHierarchy.cut_copy gh ilevel dx dy dz nx ny nz).m_offz <
                    ((nz / 2 : ℕ) : ℤ)
               then GridHierarchy.cut_corr gh ilevel dx dy dz nx ny nz
               else 0) } := by
  unfold GridHierarchy.cut_patch_run
  simp only [GridHierarchy.find_new_levelmin, hlm, if_pos, Bool.false_eq_true,
    if_false]

theorem cut_copy_data (gh : Music.GridHierarchy) (ilevel : ℕ) (dx dy dz : ℤ)
    (nx ny nz : ℕ) :
    (GridHierarchy.cut_copy gh ilevel dx dy dz nx ny nz).data = fun i j k =>
      if 0 ≤ i ∧ i < (nx : ℤ) ∧ 0 ≤ j ∧ j < (ny : ℤ) ∧ 0 ≤ k ∧ k < (nz : ℤ)
      then (gh.m_pgrids.getD ilevel default).data (i + dx) (j + dy) (k + dz)
      else 0 := rfl

theorem cut_copy_off (gh : Music.GridHierarchy) (ilevel : ℕ) (dx dy dz : ℤ)
    (nx ny nz : ℕ) :
    (GridHierarchy.cut_copy gh ilevel dx dy dz nx ny nz).m_offx =
      (gh.m_pgrids.getD ilevel default).m_offx + dx / 2 ∧
    (GridHierarchy.cut_copy gh ilevel dx dy dz nx ny nz).m_offy =
      (gh.m_pgrids.getD ilevel default).m_offy + dy / 2 ∧
    (GridHierarchy.cut_copy gh ilevel dx dy dz nx ny nz).m_offz =
      (gh.m_pgrids.getD ilevel default).m_offz + dz / 2 :=
  ⟨rfl, rfl, rfl⟩

/-- `gridSum` of the guarded copy equals the sum of the unguarded shifted
data. -/
theorem gridSum_cut_copy (gh : Music.GridHierarchy) (ilevel : ℕ)
    (dx dy dz : ℤ) (nx ny nz : ℕ) :
    gridSum (GridHierarchy.cut_copy gh ilevel dx dy dz nx ny nz).data nx ny nz =
      gridSum (fun i j k =>
        (gh.m_pgrids.getD ilevel default).data (i + dx) (j + dy) (k + dz))
        nx ny nz := by
  rw [cut_copy_data]
  refine gridSum_congr_box _ _ fun i j k hi hj hk => ?_
  have : (0 : ℤ) ≤ (i : ℤ) ∧ (i : ℤ) < (nx : ℤ) ∧ (0 : ℤ) ≤ (j : ℤ) ∧
      (j : ℤ) < (ny : ℤ) ∧ (0 : ℤ) ≤ (k : ℤ) ∧ (k : ℤ) < (nz : ℤ) := by
    refine ⟨Int.ofNat_nonneg i, ?_, Int.ofNat_nonneg j, ?_, Int.ofNat_nonneg k, ?_⟩
      <;> exact_mod_cast ‹_›
  simp [this]

/-- The correction constant is the coarse footprint mean minus the fine
patch mean. -/
theorem cut_corr_eq (gh : Music.GridHierarchy) (ilevel : ℕ) (dx dy dz : ℤ)
    (nx ny nz : ℕ) :
    GridHierarchy.cut_corr gh ilevel dx dy dz nx ny nz =
      gridSum (fun i j k =>
          (gh.m_pgrids.getD (ilevel - 1) default).data
            (i + ((gh.m_pgrids.getD ilevel default).m_offx + dx / 2))
            (j + ((gh.m_pgrids.getD ilevel default).m_offy + dy / 2))
            (k + ((gh.m_pgrids.getD ilevel default).m_offz + dz / 2)))
        (nx / 2) (ny / 2) (nz / 2) /
        (((nx / 2) * (ny / 2) * (nz / 2) : ℕ) : ℚ) -
      gridSum (fun i j k =>
          (gh.m_pgrids.getD ilevel default).data (i + dx) (j + dy) (k + dz))
        nx ny nz / ((nx * ny * nz : ℕ) : ℚ) := by
  unfold GridHierarchy.cut_corr
  rw [gridSum_cut_copy]

/-- **C3.** For every `cut_patch(ilevel, …, enforce_coarse_mean)` call
with `levelmin < ilevel` (even non-negative offset deltas, extents at
least 2 so both means exist): with `enforce_coarse_mean = true` every
value of the new patch is the copied value shifted by the single constant
`cmean - fmean` (coarse footprint mean minus copied-patch mean), making
the patch mean equal the co-located coarser-level footprint mean, while
the coarser level is unchanged; with `enforce_coarse_mean = false` the
patch keeps the copied data and instead every co-located coarser cell is
shifted by the negated constant, making the coarse footprint mean equal
the patch mean. -/
theorem C3_cut_patch_mean_enforcement (gh : Music.GridHierarchy) (ilevel : ℕ)
    (xoff yoff zoff : ℤ) (nx ny nz : ℕ)
    (hil : ilevel < gh.m_pgrids.length)
    (hlm : gh.m_levelmin < ilevel)
    (hnx : 2 ≤ nx) (hny : 2 ≤ ny) (hnz : 2 ≤ nz) :
    ∀ dx dy dz : ℤ,
      dx = xoff - gh.m_xoffabs.getD ilevel 0 →
      dy = yoff - gh.m_yoffabs.getD ilevel 0 →
      dz = zoff - gh.m_zoffabs.getD ilevel 0 →
      dx % 2 = 0 → dy % 2 = 0 → dz % 2 = 0 →
      0 ≤ dx → 0 ≤ dy → 0 ≤ dz →
      ∀ old coarse : MeshvarBnd,
        old = gh.m_pgrids.getD ilevel default →
        coarse = gh.m_pgrids.getD (ilevel - 1) default →
        ∀ fmean cmean : ℚ,
          fmean = gridSum (fun i j k => old.data (i + dx) (j + dy) (k + dz))
            nx ny nz / ((nx * ny * nz : ℕ) : ℚ) →
          cmean = gridSum (fun i j k =>
              coarse.data (i + (old.m_offx + dx / 2)) (j + (old.m_offy + dy / 2))
                (k + (old.m_offz + dz / 2))) (nx / 2) (ny / 2) (nz / 2) /
            (((nx / 2) * (ny / 2) * (nz / 2) : ℕ) : ℚ) →
          gh.cut_patch ilevel xoff yoff zoff nx ny nz true =
            some (gh.cut_patch_run ilevel dx dy dz nx ny nz true) ∧
          gh.cut_patch ilevel xoff yoff zoff nx ny nz false =
            some (gh.cut_patch_run ilevel dx dy dz nx ny nz false) ∧
          (∀ i j k : ℤ, 0 ≤ i → i < (nx : ℤ) → 0 ≤ j → j < (ny : ℤ) →
            0 ≤ k → k < (nz : ℤ) →
            ((gh.cut_patch_run ilevel dx dy dz nx ny nz true).m_pgrids.getD
                ilevel default).data i j k =
              old.data (i + dx) (j + dy) (k + dz) + (cmean - fmean)) ∧
          (gridSum ((gh.cut_patch_run ilevel dx dy dz nx ny nz true).m_pgrids.getD
              ilevel default).data nx ny nz / ((nx * ny * nz : ℕ) : ℚ) = cmean) ∧
          ((gh.cut_patch_run ilevel dx dy dz nx ny nz true).m_pgrids.getD
              (ilevel - 1) default = coarse) ∧
          (∀ i j k : ℤ, 0 ≤ i → i < (nx : ℤ) → 0 ≤ j → j < (ny : ℤ) →
            0 ≤ k → k < (nz : ℤ) →
            ((gh.cut_patch_run ilevel dx dy dz nx ny nz false).m_pgrids.getD
                ilevel default).data i j k =
              old.data (i + dx) (j + dy) (k + dz)) ∧
          (∀ i j k : ℤ, 0 ≤ i → i < ((nx / 2 : ℕ) : ℤ) → 0 ≤ j →
            j < ((ny / 2 : ℕ) : ℤ) → 0 ≤ k → k < ((nz / 2 : ℕ) : ℤ) →
            ((gh.cut_patch_run ilevel dx dy dz nx ny nz false).m_pgrids.getD
                (ilevel - 1) default).data (i + (old.m_offx + dx / 2))
                (j + (old.m_offy + dy / 2)) (k + (old.m_offz + dz / 2)) =
              coarse.data (i + (old.m_offx + dx / 2)) (j + (old.m_offy + dy / 2))
                (k + (old.m_offz + dz / 2)) - (cmean - fmean)) ∧
          (gridSum (fun i j k =>
              ((gh.cut_patch_run ilevel dx dy dz nx ny nz false).m_pgrids.getD
                  (ilevel - 1) default).data (i + (old.m_offx + dx / 2))
                (j + (old.m_offy + dy / 2)) (k + (old.m_offz + dz / 2)))
              (nx / 2) (ny / 2) (nz / 2) /
            (((nx / 2) * (ny / 2) * (nz / 2) : ℕ) : ℚ) = fmean) := by
  intro dx dy dz hdx hdy hdz hpx hpy hpz _ _ _ old coarse hold hcoarse
    fmean cmean hfm hcm
  have hilne : ilevel - 1 ≠ ilevel := by omega
  have hilne2 : ilevel - 1 ≠ ilevel + 1 := by omega
  have hcount : ((nx * ny * nz : ℕ) : ℚ) ≠ 0 := by
    have h0 : 0 < nx * ny * nz :=
      Nat.mul_pos (Nat.mul_pos (by omega) (by omega)) (by omega)
    exact_mod_cast Nat.pos_iff_ne_zero.1 h0
  have hccount : (((nx / 2) * (ny / 2) * (nz / 2) : ℕ) : ℚ) ≠ 0 := by
    have h1 : 0 < nx / 2 := Nat.div_pos hnx (by omega)
    have h2 : 0 < ny / 2 := Nat.div_pos hny (by omega)
    have h3 : 0 < nz / 2 := Nat.div_pos hnz (by omega)
    have h0 : 0 < (nx / 2) * (ny / 2) * (nz / 2) :=
      Nat.mul_pos (Nat.mul_pos h1 h2) h3
    exact_mod_cast Nat.pos_iff_ne_zero.1 h0
  subst hdx hdy hdz hold hcoarse hfm hcm
  set dx := xoff - gh.m_xoffabs.getD ilevel 0 with hdxd
  set dy := yoff - gh.m_yoffabs.getD ilevel 0 with hdyd
  set dz := zoff - gh.m_zoffabs.getD ilevel 0 with hdzd
  set old := gh.m_pgrids.getD ilevel default with holdd
  set coarse := gh.m_pgrids.getD (ilevel - 1) default with hcoarsed
  set Sf := gridSum (fun i j k => old.data (i + dx) (j + dy) (k + dz)) nx ny nz
    with hSf
  set Sc := gridSum (fun i j k =>
      coarse.data (i + (old.m_offx + dx / 2)) (j + (old.m_offy + dy / 2))
        (k + (old.m_offz + dz / 2))) (nx / 2) (ny / 2) (nz / 2) with hSc
  have hcorr : GridHierarchy.cut_corr gh ilevel dx dy dz nx ny nz =
      Sc / (((nx / 2) * (ny / 2) * (nz / 2) : ℕ) : ℚ) -
        Sf / ((nx * ny * nz : ℕ) : ℚ) := by
    rw [cut_corr_eq]
  have hlenrep : ilevel <
      (GridHierarchy.cut_replace gh ilevel dx dy dz nx ny nz).length := by
    rw [cut_replace_length]; exact hil
  have hlenrep1 : ilevel - 1 <
      (GridHierarchy.cut_replace gh ilevel dx dy dz nx ny nz).length := by
    rw [cut_replace_length]; omega
  have hTgrid : (gh.cut_patch_run ilevel dx dy dz nx ny nz true).m_pgrids.getD
      ilevel default =
      { GridHierarchy.cut_copy gh ilevel dx dy dz nx ny nz with
        data := fun i j k =>
          (GridHierarchy.cut_copy gh ilevel dx dy dz nx ny nz).data i j k +
            (if 0 ≤ i ∧ i < (nx : ℤ) ∧ 0 ≤ j ∧ j < (ny : ℤ) ∧
                0 ≤ k ∧ k < (nz : ℤ)
             then GridHierarchy.cut_corr gh ilevel dx dy dz nx ny nz
             else 0) } := by
    rw [cut_patch_run_pgrids_true gh ilevel dx dy dz nx ny nz hlm,
      getD_set_self _ _ _ _ hlenrep]
  have hTcoarse : (gh.cut_patch_run ilevel dx dy dz nx ny nz true).m_pgrids.getD
      (ilevel - 1) default = coarse := by
    rw [cut_patch_run_pgrids_true gh ilevel dx dy dz nx ny nz hlm,
      getD_set_ne _ _ _ (Ne.symm hilne),
      cut_replace_getD_other gh ilevel dx dy dz nx ny nz hilne hilne2]
  have hFpatch : (gh.cut_patch_run ilevel dx dy dz nx ny nz false).m_pgrids.getD
      ilevel default = GridHierarchy.cut_copy gh ilevel dx dy dz nx ny nz := by
    rw [cut_patch_run_pgrids_false gh ilevel dx dy dz nx ny nz hlm,
      getD_set_ne _ _ _ hilne,
      cut_replace_getD_self gh ilevel dx dy dz nx ny nz hil]
  have hFcoarse : (gh.cut_patch_run ilevel dx dy dz nx ny nz false).m_pgrids.getD
      (ilevel - 1) default =
      { coarse with
        data := fun i j k =>
          coarse.data i j k -
            (if 0 ≤ i - (GridHierarchy.cut_copy gh ilevel dx dy dz nx ny nz).m_offx ∧
                i - (GridHierarchy.cut_copy gh ilevel dx dy dz nx ny nz).m_offx <
                  ((nx / 2 : ℕ) : ℤ) ∧
                0 ≤ j - (GridHierarchy.cut_copy gh ilevel dx dy dz nx ny nz).m_offy ∧
                j - (GridHierarchy.cut_copy gh ilevel dx dy dz nx ny nz).m_offy <
                  ((ny / 2 : ℕ) : ℤ) ∧
                0 ≤ k - (GridHierarchy.cut_copy gh ilevel dx dy dz nx ny nz).m_offz ∧
                k - (GridHierarchy.cut_copy gh ilevel dx dy dz nx ny nz).m_offz <
                  ((nz / 2 : ℕ) : ℤ)
             then GridHierarchy.cut_corr gh ilevel dx dy dz nx ny nz
             else 0) } := by
    rw [cut_patch_run_pgrids_false gh ilevel dx dy dz nx ny nz hlm,
      getD_set_self _ _ _ _ hlenrep1]
  have hTdata : ((gh.cut_patch_run ilevel dx dy dz nx ny nz true).m_pgrids.getD
      ilevel default).data = fun i j k =>
      (GridHierarchy.cut_copy gh ilevel dx dy dz nx ny nz).data i j k +
        (if 0 ≤ i ∧ i < (nx : ℤ) ∧ 0 ≤ j ∧ j < (ny : ℤ) ∧
            0 ≤ k ∧ k < (nz : ℤ)
         then GridHierarchy.cut_corr gh ilevel dx dy dz nx ny nz else 0) := by
    rw [hTgrid]
  have hFCdata : ((gh.cut_patch_run ilevel dx dy dz nx ny nz false).m_pgrids.getD
      (ilevel - 1) default).data = fun i j k =>
      coarse.data i j k -
        (if 0 ≤ i - (GridHierarchy.cut_copy gh ilevel dx dy dz nx ny nz).m_offx ∧
            i - (GridHierarchy.cut_copy gh ilevel dx dy dz nx ny nz).m_offx <
              ((nx / 2 : ℕ) : ℤ) ∧
            0 ≤ j - (GridHierarchy.cut_copy gh ilevel dx dy dz nx ny nz).m_offy ∧
            j - (GridHierarchy.cut_copy gh ilevel dx dy dz nx ny nz).m_offy <
              ((ny / 2 : ℕ) : ℤ) ∧
            0 ≤ k - (GridHierarchy.cut_copy gh ilevel dx dy dz nx ny nz).m_offz ∧
            k - (GridHierarchy.cut_copy gh ilevel dx dy dz nx ny nz).m_offz <
              ((nz / 2 : ℕ) : ℤ)
         then GridHierarchy.cut_corr gh ilevel dx dy dz nx ny nz else 0) := by
    rw [hFcoarse]
  have hshift : ∀ i : ℤ,
      (i + (old.m_offx + dx / 2) -
        (GridHierarchy.cut_copy gh ilevel dx dy dz nx ny nz).m_offx = i) ∧
      (i + (old.m_offy + dy / 2) -
        (GridHierarchy.cut_copy gh ilevel dx dy dz nx ny nz).m_offy = i) ∧
      (i + (old.m_offz + dz / 2) -
        (GridHierarchy.cut_copy gh ilevel dx dy dz nx ny nz).m_offz = i) := by
    intro i
    refine ⟨?_, ?_, ?_⟩
    · rw [(cut_copy_off gh ilevel dx dy dz nx ny nz).1, ← holdd,
        add_sub_cancel_right]
    · rw [(cut_copy_off gh ilevel dx dy dz nx ny nz).2.1, ← holdd,
        add_sub_cancel_right]
    · rw [(cut_copy_off gh ilevel dx dy dz nx ny nz).2.2, ← holdd,
        add_sub_cancel_right]
  refine ⟨?_, ?_, ?_, ?_, hTcoarse, ?_, ?_, ?_⟩
  · unfold GridHierarchy.cut_patch
    simp only [← hdxd, ← hdyd, ← hdzd, hpx, hpy, hpz, and_self, if_true]
  · unfold GridHierarchy.cut_patch
    simp only [← hdxd, ← hdyd, ← hdzd, hpx, hpy, hpz, and_self, if_true]
  · -- true branch: every patch value is the copy plus the constant
    intro i j k hi hi' hj hj' hk hk'
    have hbox : 0 ≤ i ∧ i < (nx : ℤ) ∧ 0 ≤ j ∧ j < (ny : ℤ) ∧
        0 ≤ k ∧ k < (nz : ℤ) := ⟨hi, hi', hj, hj', hk, hk'⟩
    rw [hTdata]
    simp only [cut_copy_data, if_pos hbox, ← holdd, hcorr]
  · -- true branch: the patch mean equals the coarse footprint mean
    rw [hTdata, gridSum_add, gridSum_box_ite, gridSum_cut_copy, ← holdd,
      ← hSf, hcorr, add_div, mul_div_cancel_left₀ _ hcount]
    ring
  · -- false branch: the patch keeps the copied data
    intro i j k hi hi' hj hj' hk hk'
    have hbox : 0 ≤ i ∧ i < (nx : ℤ) ∧ 0 ≤ j ∧ j < (ny : ℤ) ∧
        0 ≤ k ∧ k < (nz : ℤ) := ⟨hi, hi', hj, hj', hk, hk'⟩
    rw [hFpatch, cut_copy_data]
    simp only [if_pos hbox, ← holdd]
  · -- false branch: every co-located coarse cell loses the constant
    intro i j k hi hi' hj hj' hk hk'
    have hbox : 0 ≤ i ∧ i < ((nx / 2 : ℕ) : ℤ) ∧ 0 ≤ j ∧
        j < ((ny / 2 : ℕ) : ℤ) ∧ 0 ≤ k ∧ k < ((nz / 2 : ℕ) : ℤ) :=
      ⟨hi, hi', hj, hj', hk, hk'⟩
    rw [hFCdata]
    simp only [(hshift i).1, (hshift j).2.1, (hshift k).2.2]
    rw [if_pos hbox, hcorr]
  · -- false branch: the coarse footprint mean matches the patch mean
    have hpt : ∀ (i j k : ℕ), i < nx / 2 → j < ny / 2 → k < nz / 2 →
        ((gh.cut_patch_run ilevel dx dy dz nx ny nz false).m_pgrids.getD
            (ilevel - 1) default).data ((i : ℤ) + (old.m_offx + dx / 2))
          ((j : ℤ) + (old.m_offy + dy / 2)) ((k : ℤ) + (old.m_offz + dz / 2)) =
          coarse.data ((i : ℤ) + (old.m_offx + dx / 2))
            ((j : ℤ) + (old.m_offy + dy / 2)) ((k : ℤ) + (old.m_offz + dz / 2)) -
            GridHierarchy.cut_corr gh ilevel dx dy dz nx ny nz := by
      intro i j k hi hj hk
      have hbox : (0 : ℤ) ≤ (i : ℤ) ∧ (i : ℤ) < ((nx / 2 : ℕ) : ℤ) ∧
          (0 : ℤ) ≤ (j : ℤ) ∧ (j : ℤ) < ((ny / 2 : ℕ) : ℤ) ∧
          (0 : ℤ) ≤ (k : ℤ) ∧ (k : ℤ) < ((nz / 2 : ℕ) : ℤ) := by
        refine ⟨Int.ofNat_nonneg i, ?_, Int.ofNat_nonneg j, ?_,
          Int.ofNat_nonneg k, ?_⟩ <;> exact_mod_cast ‹_›
      rw [hFCdata]
      simp only [(hshift (i : ℤ)).1, (hshift (j : ℤ)).2.1, (hshift (k : ℤ)).2.2]
      rw [if_pos hbox]
    have hcsum := gridSum_congr_box
      (fun i j k =>
        ((gh.cut_patch_run ilevel dx dy dz nx ny nz false).m_pgrids.getD
            (ilevel - 1) default).data (i + (old.m_offx + dx / 2))
          (j + (old.m_offy + dy / 2)) (k + (old.m_offz + dz / 2)))
      (fun i j k =>
        coarse.data (i + (old.m_offx + dx / 2)) (j + (old.m_offy + dy / 2))
            (k + (old.m_offz + dz / 2)) -
          GridHierarchy.cut_corr gh ilevel dx dy dz nx ny nz)
      (fun i j k hi hj hk => by exact hpt i j k hi hj hk)
    rw [hcsum, gridSum_sub, gridSum_const, ← hSc, hcorr, sub_div,
      mul_div_cancel_left₀ _ hccount]
    ring

/-- Witness for C3: cutting level 1 of `ghC3` to extent `(2,2,2)` at the
unchanged absolute offset succeeds, and with `enforce_coarse_mean = true`
the coarser level is untouched. -/
theorem C3_cut_patch_mean_enforcement_witness :
    ghC3.cut_patch 1 0 0 0 2 2 2 true =
      some (ghC3.cut_patch_run 1 0 0 0 2 2 2 true) ∧
    (ghC3.cut_patch_run 1 0 0 0 2 2 2 true).m_pgrids.getD 0 default =
      ghC3.m_pgrids.getD 0 default := by
  have h := C3_cut_patch_mean_enforcement ghC3 1 0 0 0 2 2 2 (by decide)
    (by decide) (by decide) (by decide) (by decide) 0 0 0 (by decide)
    (by decide) (by decide) (by decide) (by decide) (by decide) (by decide)
    (by decide) (by decide) (ghC3.m_pgrids.getD 1 default)
    (ghC3.m_pgrids.getD 0 default) rfl rfl
    (gridSum (fun i j k => (ghC3.m_pgrids.getD 1 default).data (i + 0) (j + 0)
        (k + 0)) 2 2 2 / ((2 * 2 * 2 : ℕ) : ℚ))
    (gridSum (fun i j k => (ghC3.m_pgrids.getD 0 default).data
        (i + ((ghC3.m_pgrids.getD 1 default).m_offx + 0 / 2))
        (j + ((ghC3.m_pgrids.getD 1 default).m_offy + 0 / 2))
        (k + ((ghC3.m_pgrids.getD 1 default).m_offz + 0 / 2)))
      (2 / 2) (2 / 2) (2 / 2) / (((2 / 2) * (2 / 2) * (2 / 2) : ℕ) : ℚ)) rfl rfl
  exact ⟨h.1, h.2.2.2.2.1⟩

theorem cut_replace_getD_finer (gh : Music.GridHierarchy) (ilevel : ℕ)
    (dx dy dz : ℤ) (nx ny nz : ℕ) (h : ilevel + 1 < gh.m_pgrids.length) :
    (GridHierarchy.cut_replace gh ilevel dx dy dz nx ny nz).getD
      (ilevel + 1) default =
      { gh.m_pgrids.getD (ilevel + 1) default with
        m_offx := (gh.m_pgrids.getD (ilevel + 1) default).m_offx - dx,
        m_offy := (gh.m_pgrids.getD (ilevel + 1) default).m_offy - dy,
        m_offz := (gh.m_pgrids.getD (ilevel + 1) default).m_offz - dz } := by
  unfold GridHierarchy.cut_replace
  simp only [List.length_set, h, if_pos]
  rw [getD_set_self _ _ _ _ (by simpa using h),
    getD_set_ne _ _ _ (by omega)]

/-- The relative offsets of every level after the grid replacement phase:
the cut level sits at its old offset plus half the (even) delta, the next
finer level loses the full delta, all others are untouched. -/
theorem cut_replace_offset (gh : Music.GridHierarchy) (ilevel : ℕ)
    (dx dy dz : ℤ) (nx ny nz : ℕ) (hil : ilevel < gh.m_pgrids.length)
    (L d : ℕ) :
    ((GridHierarchy.cut_replace gh ilevel dx dy dz nx ny nz).getD L
      default).offset d =
      if L = ilevel then
        gh.offset ilevel d + dvec3 dx dy dz d / 2
      else if L = ilevel + 1 ∧ ilevel + 1 < gh.m_pgrids.length then
        gh.offset L d - dvec3 dx dy dz d
      else gh.offset L d := by
  by_cases hL : L = ilevel
  · subst hL
    rw [cut_replace_getD_self gh L dx dy dz nx ny nz hil, if_pos rfl]
    unfold GridHierarchy.cut_copy
    by_cases h0 : d = 0
    · simp [h0, GridHierarchy.offset, MeshvarBnd.offset, MeshvarBnd.make, dvec3]
    · by_cases h1 : d = 1
      · simp [h0, h1, GridHierarchy.offset, MeshvarBnd.offset, MeshvarBnd.make,
          dvec3]
      · simp [h0, h1, GridHierarchy.offset, MeshvarBnd.offset, MeshvarBnd.make,
          dvec3]
  · by_cases hL1 : L = ilevel + 1 ∧ ilevel + 1 < gh.m_pgrids.length
    · obtain ⟨hL1e, hlen⟩ := hL1
      subst hL1e
      rw [cut_replace_getD_finer gh ilevel dx dy dz nx ny nz hlen,
        if_neg hL, if_pos ⟨rfl, hlen⟩]
      by_cases h0 : d = 0
      · simp [h0, GridHierarchy.offset, MeshvarBnd.offset, dvec3]
      · by_cases h1 : d = 1
        · simp [h0, h1, GridHierarchy.offset, MeshvarBnd.offset, dvec3]
        · simp [h0, h1, GridHierarchy.offset, MeshvarBnd.offset, dvec3]
    · rw [if_neg hL, if_neg hL1]
      by_cases hfin : L = ilevel + 1
      · -- then `ilevel+1` is beyond the stored levels: both sides read the
        -- default grid
        subst hfin
        have hlen : ¬ ilevel + 1 < gh.m_pgrids.length := fun hc => hL1 ⟨rfl, hc⟩
        unfold GridHierarchy.cut_replace
        simp only [List.length_set, hlen, if_false]
        rw [show GridHierarchy.offset gh (ilevel + 1) d =
            (gh.m_pgrids.getD (ilevel + 1) default).offset d from rfl]
        rw [getD_set_ne _ _ _ (by omega)]
      · rw [cut_replace_getD_other gh ilevel dx dy dz nx ny nz hL hfin]
        rfl

theorem cut_patch_run_pgrids_nolmin (gh : Music.GridHierarchy) (ilevel : ℕ)
    (dx dy dz : ℤ) (nx ny nz : ℕ) (b : Bool)
    (hlm : ¬ gh.m_levelmin < ilevel) :
    (GridHierarchy.cut_patch_run gh ilevel dx dy dz nx ny nz b).m_pgrids =
      GridHierarchy.cut_replace gh ilevel dx dy dz nx ny nz := by
  unfold GridHierarchy.cut_patch_run
  cases b <;> simp [GridHierarchy.find_new_levelmin, hlm]

/-- The mean-enforcement phase only rewrites grid data: every level's
relative offsets after `cut_patch_run` agree with the replacement
phase. -/
theorem cut_patch_run_offset (gh : Music.GridHierarchy) (ilevel : ℕ)
    (dx dy dz : ℤ) (nx ny nz : ℕ) (b : Bool)
    (hil : ilevel < gh.m_pgrids.length) (L d : ℕ) :
    ((GridHierarchy.cut_patch_run gh ilevel dx dy dz nx ny nz b).m_pgrids.getD
      L default).offset d =
      ((GridHierarchy.cut_replace gh ilevel dx dy dz nx ny nz).getD L
        default).offset d := by
  by_cases hlm : gh.m_levelmin < ilevel
  · cases b
    · rw [cut_patch_run_pgrids_false gh ilevel dx dy dz nx ny nz hlm]
      by_cases hL : L = ilevel - 1
      · subst hL
        rw [getD_set_self _ _ _ _ (by rw [cut_replace_length]; omega),
          cut_replace_getD_other gh ilevel dx dy dz nx ny nz (by omega)
            (by omega)]
        rfl
      · rw [getD_set_ne _ _ _ (fun hc => hL hc.symm)]
    · rw [cut_patch_run_pgrids_true gh ilevel dx dy dz nx ny nz hlm]
      by_cases hL : L = ilevel
      · subst hL
        rw [getD_set_self _ _ _ _ (by rw [cut_replace_length]; exact hil),
          cut_replace_getD_self gh L dx dy dz nx ny nz hil]
        rfl
      · rw [getD_set_ne _ _ _ (fun hc => hL hc.symm)]
  · rw [cut_patch_run_pgrids_nolmin gh ilevel dx dy dz nx ny nz b hlm]

/-- The absolute offsets after `cut_patch_run`: the cut level gains the
delta, every other level is untouched. -/
theorem cut_patch_run_offset_abs (gh : Music.GridHierarchy) (ilevel : ℕ)
    (dx dy dz : ℤ) (nx ny nz : ℕ) (b : Bool)
    (hx : gh.m_xoffabs.length = gh.m_pgrids.length)
    (hy : gh.m_yoffabs.length = gh.m_pgrids.length)
    (hz : gh.m_zoffabs.length = gh.m_pgrids.length)
    (hil : ilevel < gh.m_pgrids.length) (L d : ℕ) :
    (GridHierarchy.cut_patch_run gh ilevel dx dy dz nx ny nz b).offset_abs
      L d =
      if L = ilevel then gh.offset_abs L d + dvec3 dx dy dz d
      else gh.offset_abs L d := by
  have hxoff : (GridHierarchy.cut_patch_run gh ilevel dx dy dz nx ny nz
      b).m_xoffabs = gh.m_xoffabs.set ilevel (gh.m_xoffabs.getD ilevel 0 + dx) := by
    unfold GridHierarchy.cut_patch_run
    rfl
  have hyoff : (GridHierarchy.cut_patch_run gh ilevel dx dy dz nx ny nz
      b).m_yoffabs = gh.m_yoffabs.set ilevel (gh.m_yoffabs.getD ilevel 0 + dy) := by
    unfold GridHierarchy.cut_patch_run
    rfl
  have hzoff : (GridHierarchy.cut_patch_run gh ilevel dx dy dz nx ny nz
      b).m_zoffabs = gh.m_zoffabs.set ilevel (gh.m_zoffabs.getD ilevel 0 + dz) := by
    unfold GridHierarchy.cut_patch_run
    rfl
  unfold GridHierarchy.offset_abs
  rw [hxoff, hyoff, hzoff]
  by_cases hL : L = ilevel
  · subst hL
    rw [if_pos rfl,
      getD_set_self _ _ _ _ (show L < gh.m_xoffabs.length by omega),
      getD_set_self _ _ _ _ (show L < gh.m_yoffabs.length by omega),
      getD_set_self _ _ _ _ (show L < gh.m_zoffabs.length by omega)]
    rcases d with _ | _ | d2 <;> simp [dvec3]
  · rw [if_neg hL, getD_set_ne _ _ _ (fun hc => hL hc.symm),
      getD_set_ne _ _ _ (fun hc => hL hc.symm),
      getD_set_ne _ _ _ (fun hc => hL hc.symm)]

theorem cut_patch_run_length (gh : Music.GridHierarchy) (ilevel : ℕ)
    (dx dy dz : ℤ) (nx ny nz : ℕ) (b : Bool) :
    (GridHierarchy.cut_patch_run gh ilevel dx dy dz nx ny nz b).m_pgrids.length =
      gh.m_pgrids.length := by
  by_cases hlm : gh.m_levelmin < ilevel
  · cases b
    · rw [cut_patch_run_pgrids_false gh ilevel dx dy dz nx ny nz hlm,
        List.length_set, cut_replace_length]
    · rw [cut_patch_run_pgrids_true gh ilevel dx dy dz nx ny nz hlm,
        List.length_set, cut_replace_length]
  · rw [cut_patch_run_pgrids_nolmin gh ilevel dx dy dz nx ny nz b hlm,
      cut_replace_length]

theorem adjust_level_absoffsets (rh : Music.RefinementHierarchy)
    (ilevel : ℕ) (nx ny nz oax oay oaz : ℤ) (L d : ℕ) :
    (rh.adjust_level ilevel nx ny nz oax oay oaz).absoffsets_ L d =
      if L = ilevel then (if d = 0 then oax else if d = 1 then oay else oaz)
      else rh.absoffsets_ L d := rfl

theorem adjust_level_offsets (rh : Music.RefinementHierarchy) (ilevel : ℕ)
    (nx ny nz oax oay oaz : ℤ) (L d : ℕ) :
    (rh.adjust_level ilevel nx ny nz oax oay oaz).offsets_ L d =
      if L = ilevel then
        rh.offsets_ L d -
          Int.tdiv (if d = 0 then rh.absoffsets_ ilevel 0 - oax
            else if d = 1 then rh.absoffsets_ ilevel 1 - oay
            else rh.absoffsets_ ilevel 2 - oaz) 2
      else if L = ilevel + 1 ∧ ilevel < rh.levelmax_ then
        rh.offsets_ L d +
          (if d = 0 then rh.absoffsets_ ilevel 0 - oax
           else if d = 1 then rh.absoffsets_ ilevel 1 - oay
           else rh.absoffsets_ ilevel 2 - oaz)
      else rh.offsets_ L d := rfl

theorem adjust_level_levelmax (rh : Music.RefinementHierarchy) (ilevel : ℕ)
    (nx ny nz oax oay oaz : ℤ) :
    (rh.adjust_level ilevel nx ny nz oax oay oaz).levelmax_ = rh.levelmax_ :=
  rfl

/-- For an even integer, twice the truncating half is the number itself. -/
theorem two_mul_tdiv_two {a : ℤ} (h : a % 2 = 0) : 2 * Int.tdiv a 2 = a := by
  obtain ⟨m, rfl⟩ := Int.dvd_of_emod_eq_zero h
  rw [Int.mul_tdiv_cancel_left _ (by norm_num)]

/-- For an even integer, twice the flooring half is the number itself. -/
theorem two_mul_ediv_two {a : ℤ} (h : a % 2 = 0) : 2 * (a / 2) = a :=
  Int.mul_ediv_cancel' (Int.dvd_of_emod_eq_zero h)

/-- **C1 (amended).** The cross-level offset-consistency equality
`abs[L] = 2*abs[L-1] + 2*rel[L]`
(`consistentAt`): (1) holds at every refined level immediately after the
geometry resolution's forward sweep; (2) is preserved, at every level,
by every *successful* `GridHierarchy::cut_patch` call (whose even-delta
assertion passed; deltas non-negative as in the source's unsigned
arithmetic); and (3) is preserved by `refinement_hierarchy::adjust_level`
*provided* the implied offset delta is even in every dimension — the
original claim's unconditional preservation under `adjust_level` is
false, see the counterexample. -/
theorem C1_offset_consistency :
    (∀ (rh : Music.RefinementHierarchy) (L d : ℕ),
      rh.levelmin_ < L → L ≤ rh.levelmax_ → d < 3 →
      (rh.resolve_offsets).consistentAt L d) ∧
    (∀ (gh : Music.GridHierarchy) (ilevel : ℕ) (xoff yoff zoff : ℤ)
      (nx ny nz : ℕ) (b : Bool) (gh' : Music.GridHierarchy),
      gh.cut_patch ilevel xoff yoff zoff nx ny nz b = some gh' →
      ilevel < gh.m_pgrids.length →
      gh.m_xoffabs.length = gh.m_pgrids.length →
      gh.m_yoffabs.length = gh.m_pgrids.length →
      gh.m_zoffabs.length = gh.m_pgrids.length →
      0 ≤ xoff - gh.m_xoffabs.getD ilevel 0 →
      0 ≤ yoff - gh.m_yoffabs.getD ilevel 0 →
      0 ≤ zoff - gh.m_zoffabs.getD ilevel 0 →
      (∀ L d : ℕ, 1 ≤ L → L < gh.m_pgrids.length → d < 3 →
        gh.consistentAt L d) →
      (∀ L d : ℕ, 1 ≤ L → L < gh'.m_pgrids.length → d < 3 →
        gh'.consistentAt L d)) ∧
    (∀ (rh : Music.RefinementHierarchy) (ilevel : ℕ)
      (nx ny nz oax oay oaz : ℤ),
      (rh.absoffsets_ ilevel 0 - oax) % 2 = 0 →
      (rh.absoffsets_ ilevel 1 - oay) % 2 = 0 →
      (rh.absoffsets_ ilevel 2 - oaz) % 2 = 0 →
      (∀ L d : ℕ, 1 ≤ L → L ≤ rh.levelmax_ → d < 3 → rh.consistentAt L d) →
      (∀ L d : ℕ, 1 ≤ L → L ≤ rh.levelmax_ → d < 3 →
        (rh.adjust_level ilevel nx ny nz oax oay oaz).consistentAt L d)) := by
  refine ⟨?_, ?_, ?_⟩
  · -- geometry resolution establishes the invariant
    intro rh L d h1 h2 _
    obtain ⟨L', rfl⟩ : ∃ L', L = L' + 1 := ⟨L - 1, by omega⟩
    show RefinementHierarchy.resolve_sweep rh (L' + 1) d =
      2 * RefinementHierarchy.resolve_sweep rh (L' + 1 - 1) d +
        2 * RefinementHierarchy.resolve_off rh (L' + 1) d
    rw [RefinementHierarchy.resolve_sweep, if_pos ⟨h1, h2⟩]
    simp
  · -- cut_patch preserves the invariant
    intro gh ilevel xoff yoff zoff nx ny nz b gh' hcall hil hx hy hz
      _ _ _ hInv L d h1 h2 hd
    simp only [GridHierarchy.cut_patch] at hcall
    by_cases hpar : (xoff - gh.m_xoffabs.getD ilevel 0) % 2 = 0 ∧
        (yoff - gh.m_yoffabs.getD ilevel 0) % 2 = 0 ∧
        (zoff - gh.m_zoffabs.getD ilevel 0) % 2 = 0
    swap
    · rw [if_neg hpar] at hcall; exact absurd hcall (by simp)
    rw [if_pos hpar] at hcall
    obtain rfl := Option.some.inj hcall
    rw [cut_patch_run_length] at h2
    have hInvL := hInv L d h1 h2 hd
    unfold GridHierarchy.consistentAt at hInvL ⊢
    have hoffL := cut_patch_run_offset gh ilevel
      (xoff - gh.m_xoffabs.getD ilevel 0) (yoff - gh.m_yoffabs.getD ilevel 0)
      (zoff - gh.m_zoffabs.getD ilevel 0) nx ny nz b hil L d
    have hrepL := cut_replace_offset gh ilevel
      (xoff - gh.m_xoffabs.getD ilevel 0) (yoff - gh.m_yoffabs.getD ilevel 0)
      (zoff - gh.m_zoffabs.getD ilevel 0) nx ny nz hil L d
    have habsL := cut_patch_run_offset_abs gh ilevel
      (xoff - gh.m_xoffabs.getD ilevel 0) (yoff - gh.m_yoffabs.getD ilevel 0)
      (zoff - gh.m_zoffabs.getD ilevel 0) nx ny nz b hx hy hz hil L d
    have habsL1 := cut_patch_run_offset_abs gh ilevel
      (xoff - gh.m_xoffabs.getD ilevel 0) (yoff - gh.m_yoffabs.getD ilevel 0)
      (zoff - gh.m_zoffabs.getD ilevel 0) nx ny nz b hx hy hz hil (L - 1) d
    have hda : 2 * (dvec3 (xoff - gh.m_xoffabs.getD ilevel 0)
        (yoff - gh.m_yoffabs.getD ilevel 0)
        (zoff - gh.m_zoffabs.getD ilevel 0) d / 2) =
        dvec3 (xoff - gh.m_xoffabs.getD ilevel 0)
          (yoff - gh.m_yoffabs.getD ilevel 0)
          (zoff - gh.m_zoffabs.getD ilevel 0) d := by
      apply two_mul_ediv_two
      unfold dvec3
      rcases d with _ | _ | d2
      · simpa using hpar.1
      · simpa using hpar.2.1
      · simpa using hpar.2.2
    rw [show GridHierarchy.offset
        (gh.cut_patch_run ilevel (xoff - gh.m_xoffabs.getD ilevel 0)
          (yoff - gh.m_yoffabs.getD ilevel 0)
          (zoff - gh.m_zoffabs.getD ilevel 0) nx ny nz b) L d =
        ((GridHierarchy.cut_patch_run gh ilevel
            (xoff - gh.m_xoffabs.getD ilevel 0)
            (yoff - gh.m_yoffabs.getD ilevel 0)
            (zoff - gh.m_zoffabs.getD ilevel 0) nx ny nz b).m_pgrids.getD L
          default).offset d from rfl]
    rw [hoffL, hrepL, habsL, habsL1]
    by_cases hLil : L = ilevel
    · subst hLil
      rw [if_pos rfl, if_pos rfl, if_neg (show ¬ L - 1 = L by omega)]
      linarith [hda, hInvL]
    · by_cases hLil1 : L = ilevel + 1
      · subst hLil1
        rw [if_neg hLil, if_neg hLil,
          if_pos (show ilevel + 1 = ilevel + 1 ∧
            ilevel + 1 < gh.m_pgrids.length from ⟨rfl, by omega⟩),
          if_pos (show ilevel + 1 - 1 = ilevel by omega)]
        linarith [hInvL]
      · rw [if_neg hLil, if_neg hLil,
          if_neg (show ¬ (L = ilevel + 1 ∧ ilevel + 1 < gh.m_pgrids.length)
            from fun hc => hLil1 hc.1),
          if_neg (show ¬ L - 1 = ilevel by omega)]
        exact hInvL
  · -- adjust_level with even deltas preserves the invariant
    intro rh ilevel nx ny nz oax oay oaz hex hey hez hInv L d h1 h2 hd
    have hInvL := hInv L d h1 h2 hd
    unfold RefinementHierarchy.consistentAt at hInvL ⊢
    rw [adjust_level_absoffsets, adjust_level_absoffsets,
      adjust_level_offsets]
    by_cases hLil : L = ilevel
    · subst hLil
      rw [if_pos rfl, if_pos rfl, if_neg (show ¬ L - 1 = L by omega)]
      interval_cases d
      · norm_num
        linarith [hInvL, two_mul_tdiv_two hex]
      · norm_num
        linarith [hInvL, two_mul_tdiv_two hey]
      · norm_num
        linarith [hInvL, two_mul_tdiv_two hez]
    · by_cases hLil1 : L = ilevel + 1
      · subst hLil1
        have hmax : ilevel < rh.levelmax_ := by omega
        simp only [Nat.add_sub_cancel] at hInvL
        rw [if_neg hLil, if_neg hLil,
          if_pos (show ilevel + 1 = ilevel + 1 ∧ ilevel < rh.levelmax_ from
            ⟨rfl, hmax⟩),
          if_pos (show ilevel + 1 - 1 = ilevel by omega)]
        interval_cases d
        · norm_num
          linarith [hInvL]
        · norm_num
          linarith [hInvL]
        · norm_num
          linarith [hInvL]
      · rw [if_neg hLil, if_neg hLil,
          if_neg (show ¬ (L = ilevel + 1 ∧ ilevel < rh.levelmax_) from
            fun hc => hLil1 hc.1),
          if_neg (show ¬ L - 1 = ilevel by omega)]
        exact hInvL

/-- Counterexample to C1 as stated: on `rh0C1` the consistency equality
holds at every refined level, yet a single `adjust_level` call whose
implied x-delta is odd (`oax = 1` against absolute offset 0) leaves the
level-1 equality broken — the relative offset loses `(-1)/2 = 0` (C++
truncating division) while the absolute offset changes by 1. -/
theorem C1_adjust_level_odd_delta_cex :
    (rh0C1.levelmin_ < 1 ∧ 1 ≤ rh0C1.levelmax_ ∧
      rh0C1.consistentAt 1 0 ∧ rh0C1.consistentAt 1 1 ∧
      rh0C1.consistentAt 1 2) ∧
    ((rh0C1.adjust_level 1 2 2 2 1 0 0).levelmin_ < 1 ∧
      1 ≤ (rh0C1.adjust_level 1 2 2 2 1 0 0).levelmax_ ∧
      ¬ (rh0C1.adjust_level 1 2 2 2 1 0 0).consistentAt 1 0) := by
  decide

/-- Witness for C1: all three amended statements applied at concrete
inputs — the resolved geometry of `rh0C1`, a concrete even-delta
`cut_patch` on `ghC1w`, and an even-delta `adjust_level` on `rh0C1`. -/
theorem C1_offset_consistency_witness :
    (rh0C1.resolve_offsets).consistentAt 1 0 ∧
    (ghC1w.cut_patch_run 1 0 0 0 2 2 2 true).consistentAt 1 0 ∧
    (rh0C1.adjust_level 1 2 2 2 0 0 0).consistentAt 1 0 := by
  refine ⟨C1_offset_consistency.1 rh0C1 1 0 (by decide) (by decide)
    (by decide), ?_, ?_⟩
  · refine C1_offset_consistency.2.1 ghC1w 1 0 0 0 2 2 2 true
      (ghC1w.cut_patch_run 1 0 0 0 2 2 2 true) ?_ (by decide) (by decide)
      (by decide) (by decide) (by decide) (by decide) (by decide) ?_ 1 0
      (by decide) ?_ (by decide)
    · rfl
    · intro L d hL1 hL2 hd
      have h2 : L < 2 := hL2
      have h3 : d < 3 := hd
      unfold GridHierarchy.consistentAt
      interval_cases L
      interval_cases d <;> decide
    · rw [cut_patch_run_length]
      decide
  · exact C1_offset_consistency.2.2 rh0C1 1 2 2 2 0 0 0 (by decide)
      (by decide) (by decide)
      (fun L d hL1 hL2 hd => by
        have h2 : L ≤ 1 := hL2
        have h3 : d < 3 := hd
        unfold RefinementHierarchy.consistentAt
        interval_cases L
        interval_cases d <;> decide) 1 0 (by decide) (by decide) (by decide)

theorem mask_pass_other (gh : Music.GridHierarchy)
    (s : GridHierarchy.MaskState) (P L : ℕ) (i j k : ℤ)
    (h1 : L ≠ P) (h2 : L ≠ P + 1) :
    GridHierarchy.mask_pass gh s P L i j k = s L i j k := by
  unfold GridHierarchy.mask_pass
  rw [if_neg h1, if_neg h2]

theorem mask_pass_self (gh : Music.GridHierarchy)
    (s : GridHierarchy.MaskState) (P : ℕ) (i j k : ℤ) :
    GridHierarchy.mask_pass gh s P P i j k =
      if (0 ≤ i ∧ i < (gh.size P 0 : ℤ) ∧ 0 ≤ j ∧ j < (gh.size P 1 : ℤ) ∧
          0 ≤ k ∧ k < (gh.size P 2 : ℤ)) ∧
          GridHierarchy.fine_flagged gh s P i j k
      then 2 else s P i j k := by
  unfold GridHierarchy.mask_pass
  rw [if_pos rfl]

theorem mask_pass_child (gh : Music.GridHierarchy)
    (s : GridHierarchy.MaskState) (P : ℕ) (i j k : ℤ) :
    GridHierarchy.mask_pass gh s P (P + 1) i j k =
      if (0 ≤ (i + 2 * gh.offset (P + 1) 0) / 2 ∧
          (i + 2 * gh.offset (P + 1) 0) / 2 < (gh.size P 0 : ℤ) ∧
          0 ≤ (j + 2 * gh.offset (P + 1) 1) / 2 ∧
          (j + 2 * gh.offset (P + 1) 1) / 2 < (gh.size P 1 : ℤ) ∧
          0 ≤ (k + 2 * gh.offset (P + 1) 2) / 2 ∧
          (k + 2 * gh.offset (P + 1) 2) / 2 < (gh.size P 2 : ℤ)) ∧
          GridHierarchy.fine_flagged gh s P ((i + 2 * gh.offset (P + 1) 0) / 2)
            ((j + 2 * gh.offset (P + 1) 1) / 2) ((k + 2 * gh.offset (P + 1) 2) / 2)
      then 1 else s (P + 1) i j k := by
  unfold GridHierarchy.mask_pass
  rw [if_neg (by omega : ¬ P + 1 = P), if_pos rfl]

theorem foldl_mask_pass_untouched (gh : Music.GridHierarchy) (l : List ℕ)
    (s : GridHierarchy.MaskState) (L : ℕ) (i j k : ℤ)
    (h : ∀ P ∈ l, L ≠ P ∧ L ≠ P + 1) :
    (l.foldl (GridHierarchy.mask_pass gh) s) L i j k = s L i j k := by
  induction l generalizing s with
  | nil => rfl
  | cons P t ih =>
    simp only [List.foldl_cons]
    rw [ih _ fun Q hQ => h Q (List.mem_cons_of_mem _ hQ)]
    exact mask_pass_other gh s P L i j k (h P (List.mem_cons_self P t)).1
      (h P (List.mem_cons_self P t)).2

theorem maskF_succ (gh : Music.GridHierarchy) (query : ℕ → ℤ → ℤ → ℤ → Bool)
    (s0 : GridHierarchy.MaskState) (n : ℕ) :
    GridHierarchy.maskF gh query s0 (n + 1) =
      GridHierarchy.mask_pass gh (GridHierarchy.maskF gh query s0 n)
        (gh.m_levelmin + n) := by
  unfold GridHierarchy.maskF
  rw [show List.range' gh.m_levelmin (n + 1) =
      List.range' gh.m_levelmin n ++ [gh.m_levelmin + n] by
    exact List.range'_1_concat gh.m_levelmin n]
  rw [List.foldl_append]
  rfl

theorem maskF_above (gh : Music.GridHierarchy) (query : ℕ → ℤ → ℤ → ℤ → Bool)
    (s0 : GridHierarchy.MaskState) (n L : ℕ) (i j k : ℤ)
    (h : gh.m_levelmin + n < L) :
    GridHierarchy.maskF gh query s0 n L i j k =
      GridHierarchy.mask_phase1 gh query s0 L i j k := by
  unfold GridHierarchy.maskF
  apply foldl_mask_pass_untouched
  intro P hP
  have hm := List.mem_range'_1.mp hP
  omega

theorem maskF_stable (gh : Music.GridHierarchy) (query : ℕ → ℤ → ℤ → ℤ → Bool)
    (s0 : GridHierarchy.MaskState) (n m L : ℕ) (i j k : ℤ)
    (hn : L + 1 ≤ gh.m_levelmin + n) (hnm : n ≤ m) :
    GridHierarchy.maskF gh query s0 m L i j k =
      GridHierarchy.maskF gh query s0 n L i j k := by
  unfold GridHierarchy.maskF
  rw [show List.range' gh.m_levelmin m =
      List.range' gh.m_levelmin n ++ List.range' (gh.m_levelmin + n) (m - n) by
    have := List.range'_append gh.m_levelmin n (m - n) 1
    simp only [one_mul] at this
    rw [this]
    congr 1
    omega]
  rw [List.foldl_append]
  apply foldl_mask_pass_untouched
  intro P hP
  have hm := List.mem_range'_1.mp hP
  omega

theorem fine_flagged_congr (gh : Music.GridHierarchy)
    (s t : GridHierarchy.MaskState) (P : ℕ) (i j k : ℤ)
    (h : ∀ a b c : ℤ, s (P + 1) a b c = t (P + 1) a b c) :
    GridHierarchy.fine_flagged gh s P i j k ↔
      GridHierarchy.fine_flagged gh t P i j k := by
  unfold GridHierarchy.fine_flagged
  simp only [h]

theorem mask_phase1_values (gh : Music.GridHierarchy)
    (query : ℕ → ℤ → ℤ → ℤ → Bool) (s0 : GridHierarchy.MaskState)
    (L : ℕ) (i j k : ℤ) (h1 : gh.m_levelmin ≤ L) (h2 : L ≤ gh.levelmaxN) :
    GridHierarchy.mask_phase1 gh query s0 L i j k = 1 ∨
      GridHierarchy.mask_phase1 gh query s0 L i j k = -1 := by
  unfold GridHierarchy.mask_phase1
  rw [if_pos ⟨h1, h2⟩]
  by_cases hq : query L (2 * (i / 2)) (2 * (j / 2)) (2 * (k / 2)) ∨
      L = gh.m_levelmin
  · exact Or.inl (if_pos hq)
  · exact Or.inr (if_neg hq)

theorem mask_pass_ne_two (gh : Music.GridHierarchy)
    (s : GridHierarchy.MaskState) (P L : ℕ) (i j k : ℤ)
    (hP : L ≠ P) (h : s L i j k ≠ 2) :
    GridHierarchy.mask_pass gh s P L i j k ≠ 2 := by
  by_cases hL : L = P + 1
  · subst hL
    rw [mask_pass_child]
    split
    · decide
    · exact h
  · rw [mask_pass_other gh s P L i j k hP hL]
    exact h

theorem maskF_ne_two_below (gh : Music.GridHierarchy)
    (query : ℕ → ℤ → ℤ → ℤ → Bool) (s0 : GridHierarchy.MaskState)
    (n L : ℕ) (i j k : ℤ) (hn : gh.m_levelmin + n ≤ L)
    (h1 : gh.m_levelmin ≤ L) (h2 : L ≤ gh.levelmaxN) :
    GridHierarchy.maskF gh query s0 n L i j k ≠ 2 := by
  induction n with
  | zero =>
    rcases mask_phase1_values gh query s0 L i j k h1 h2 with hv | hv
    · show GridHierarchy.mask_phase1 gh query s0 L i j k ≠ 2
      omega
    · show GridHierarchy.mask_phase1 gh query s0 L i j k ≠ 2
      omega
  | succ m ih =>
    rw [maskF_succ]
    exact mask_pass_ne_two gh _ _ _ _ _ _ (by omega) (ih (by omega))

theorem add_refinement_mask_eq_maskF (gh : Music.GridHierarchy)
    (query : ℕ → ℤ → ℤ → ℤ → Bool) (s0 : GridHierarchy.MaskState)
    (h : ¬ gh.m_levelmin = gh.levelmaxN) :
    GridHierarchy.add_refinement_mask gh query s0 =
      GridHierarchy.maskF gh query s0 (gh.levelmaxN - gh.m_levelmin) := by
  unfold GridHierarchy.add_refinement_mask GridHierarchy.maskF
  rw [if_neg h]

/-- Value of the final mask at a level `L` below `levelmax`: the pass at
`L` is the last one to touch level `L`, and at that moment level `L+1`
still holds its phase-1 (query) values, so the cell is `2` exactly when
`fine_is_flagged` succeeds on the *phase-1* state; otherwise the value of
the state before the pass at `L` is kept. -/
theorem add_mask_coarse_value (gh : Music.GridHierarchy)
    (query : ℕ → ℤ → ℤ → ℤ → Bool) (s0 : GridHierarchy.MaskState)
    (L : ℕ) (i j k : ℤ) (hL1 : gh.m_levelmin ≤ L) (hL2 : L < gh.levelmaxN) :
    GridHierarchy.add_refinement_mask gh query s0 L i j k =
      if (0 ≤ i ∧ i < (gh.size L 0 : ℤ) ∧ 0 ≤ j ∧ j < (gh.size L 1 : ℤ) ∧
          0 ≤ k ∧ k < (gh.size L 2 : ℤ)) ∧
          GridHierarchy.fine_flagged gh
            (GridHierarchy.mask_phase1 gh query s0) L i j k
      then 2
      else GridHierarchy.maskF gh query s0 (L - gh.m_levelmin) L i j k := by
  have hequp : ∀ x y z : ℤ,
      GridHierarchy.maskF gh query s0 (L - gh.m_levelmin) (L + 1) x y z =
        GridHierarchy.mask_phase1 gh query s0 (L + 1) x y z :=
    fun x y z =>
      maskF_above gh query s0 (L - gh.m_levelmin) (L + 1) x y z (by omega)
  have hiff := fine_flagged_congr gh
    (GridHierarchy.maskF gh query s0 (L - gh.m_levelmin))
    (GridHierarchy.mask_phase1 gh query s0) L i j k hequp
  rw [add_refinement_mask_eq_maskF gh query s0 (by omega)]
  rw [maskF_stable gh query s0 (L - gh.m_levelmin + 1)
    (gh.levelmaxN - gh.m_levelmin) L i j k (by omega) (by omega)]
  rw [maskF_succ]
  have hLm : gh.m_levelmin + (L - gh.m_levelmin) = L := by omega
  rw [hLm, mask_pass_self]
  by_cases hfl : GridHierarchy.fine_flagged gh
      (GridHierarchy.mask_phase1 gh query s0) L i j k
  · by_cases hbd : 0 ≤ i ∧ i < (gh.size L 0 : ℤ) ∧ 0 ≤ j ∧
        j < (gh.size L 1 : ℤ) ∧ 0 ≤ k ∧ k < (gh.size L 2 : ℤ)
    · rw [if_pos ⟨hbd, hiff.mpr hfl⟩, if_pos ⟨hbd, hfl⟩]
    · rw [if_neg fun h => hbd h.1, if_neg fun h => hbd h.1]
  · rw [if_neg fun h => hfl (hiff.mp h.2), if_neg fun h => hfl h.2]

/-- When a cell of level `L` is refined (its `fine_is_flagged` test on the
phase-1 state succeeds), each of its eight child cells on level `L+1` is
set to `1` by the pass at `L` and can only be promoted to `2` by the pass
at `L+1`, so its final value is positive. -/
theorem add_mask_child_value (gh : Music.GridHierarchy)
    (query : ℕ → ℤ → ℤ → ℤ → Bool) (s0 : GridHierarchy.MaskState)
    (L : ℕ) (i j k a b c : ℤ)
    (hL1 : gh.m_levelmin ≤ L) (hL2 : L < gh.levelmaxN)
    (hib : 0 ≤ i ∧ i < (gh.size L 0 : ℤ) ∧ 0 ≤ j ∧ j < (gh.size L 1 : ℤ) ∧
      0 ≤ k ∧ k < (gh.size L 2 : ℤ))
    (hfl : GridHierarchy.fine_flagged gh
      (GridHierarchy.mask_phase1 gh query s0) L i j k)
    (ha1 : 0 ≤ a) (ha2 : a < 2) (hb1 : 0 ≤ b) (hb2 : b < 2)
    (hc1 : 0 ≤ c) (hc2 : c < 2) :
    0 < GridHierarchy.add_refinement_mask gh query s0 (L + 1)
      (2 * i - 2 * gh.offset (L + 1) 0 + a)
      (2 * j - 2 * gh.offset (L + 1) 1 + b)
      (2 * k - 2 * gh.offset (L + 1) 2 + c) := by
  have hequp : ∀ x y z : ℤ,
      GridHierarchy.maskF gh query s0 (L - gh.m_levelmin) (L + 1) x y z =
        GridHierarchy.mask_phase1 gh query s0 (L + 1) x y z :=
    fun x y z =>
      maskF_above gh query s0 (L - gh.m_levelmin) (L + 1) x y z (by omega)
  have hfl' : GridHierarchy.fine_flagged gh
      (GridHierarchy.maskF gh query s0 (L - gh.m_levelmin)) L i j k :=
    (fine_flagged_congr gh _ _ L i j k hequp).mpr hfl
  have hmf : GridHierarchy.maskF gh query s0 (L - gh.m_levelmin + 1) (L + 1)
      (2 * i - 2 * gh.offset (L + 1) 0 + a)
      (2 * j - 2 * gh.offset (L + 1) 1 + b)
      (2 * k - 2 * gh.offset (L + 1) 2 + c) = 1 := by
    rw [maskF_succ]
    have hLm : gh.m_levelmin + (L - gh.m_levelmin) = L := by omega
    rw [hLm, mask_pass_child]
    have hpi : (2 * i - 2 * gh.offset (L + 1) 0 + a +
        2 * gh.offset (L + 1) 0) / 2 = i := by omega
    have hpj : (2 * j - 2 * gh.offset (L + 1) 1 + b +
        2 * gh.offset (L + 1) 1) / 2 = j := by omega
    have hpk : (2 * k - 2 * gh.offset (L + 1) 2 + c +
        2 * gh.offset (L + 1) 2) / 2 = k := by omega
    rw [hpi, hpj, hpk, if_pos ⟨hib, hfl'⟩]
  by_cases hend : L + 1 < gh.levelmaxN
  · rw [add_refinement_mask_eq_maskF gh query s0 (by omega)]
    rw [maskF_stable gh query s0 (L - gh.m_levelmin + 1 + 1)
      (gh.levelmaxN - gh.m_levelmin) (L + 1)
      (2 * i - 2 * gh.offset (L + 1) 0 + a)
      (2 * j - 2 * gh.offset (L + 1) 1 + b)
      (2 * k - 2 * gh.offset (L + 1) 2 + c) (by omega) (by omega)]
    rw [maskF_succ]
    have hLm2 : gh.m_levelmin + (L - gh.m_levelmin + 1) = L + 1 := by omega
    rw [hLm2, mask_pass_self]
    split
    · norm_num
    · rw [hmf]; norm_num
  · rw [add_refinement_mask_eq_maskF gh query s0 (by omega)]
    have hn : gh.levelmaxN - gh.m_levelmin = L - gh.m_levelmin + 1 := by omega
    rw [hn, hmf]
    norm_num

/-- Witness for C10: a one-level and a two-level hierarchy mismatch; the
assignment rebuilds the full copy while `operator+=` errors out. -/
theorem C10_assign_rebuilds_witness :
    (GridHierarchy.hier_assign ⟨0, 0, [default], [0], [0], [0]⟩
        ⟨1, 0, [default, default], [0, 1], [0, 1], [0, 1]⟩).m_levelmin = 0 ∧
    GridHierarchy.hier_addAssign ⟨0, 0, [default], [0], [0], [0]⟩
        ⟨1, 0, [default, default], [0, 1], [0, 1], [0, 1]⟩ = none := by
  have h := C10_assign_rebuilds ⟨0, 0, [default], [0], [0], [0]⟩
    ⟨1, 0, [default, default], [0, 1], [0, 1], [0, 1]⟩ (by decide)
  exact ⟨h.2.1, h.2.2.2.2.2.2⟩

/-- **C6** (corrected).  After `add_refinement_mask` on a hierarchy with
`levelmin() < levelmax()`, for every level `levelmin() ≤ L < levelmax()`
and every cell `(i,j,k)` inside level `L`'s extents (levels with the even
extents the block traversal assumes): the final mask value is `2`
(refined) **iff** the `fine_is_flagged` test succeeds on the *phase-1
(query-sweep) state* — i.e. the base child `2·(i,j,k) − 2·offset(L+1)`
lies inside level `L+1` and one of the 8 children was marked inside the
region by the initial query sweep.  This is *not* equivalent to "some
child has a positive final value" (refuted by `C6_final_mask_iff_cex`:
a later pass can promote a child to `2` after its parent was scanned).
Moreover, whenever the cell's value is `2`, all 8 of its children lie
inside level `L+1` and end with positive final mask values (they are set
to `1` by the pass at `L`; the pass at `L+1` may promote some to `2`, so
"all children are set to `1`" also holds only at pass time, not of the
final state). -/
theorem C6_refinement_mask (gh : Music.GridHierarchy)
    (query : ℕ → ℤ → ℤ → ℤ → Bool) (s0 : GridHierarchy.MaskState)
    (L : ℕ) (i j k : ℤ)
    (hL1 : gh.m_levelmin ≤ L) (hL2 : L < gh.levelmaxN)
    (hib : 0 ≤ i ∧ i < (gh.size L 0 : ℤ) ∧ 0 ≤ j ∧ j < (gh.size L 1 : ℤ) ∧
      0 ≤ k ∧ k < (gh.size L 2 : ℤ))
    (heven : 2 ∣ gh.size (L + 1) 0 ∧ 2 ∣ gh.size (L + 1) 1 ∧
      2 ∣ gh.size (L + 1) 2) :
    (GridHierarchy.add_refinement_mask gh query s0 L i j k = 2 ↔
      GridHierarchy.fine_flagged gh
        (GridHierarchy.mask_phase1 gh query s0) L i j k) ∧
    (GridHierarchy.add_refinement_mask gh query s0 L i j k = 2 →
      ∀ a b c : ℤ, 0 ≤ a → a < 2 → 0 ≤ b → b < 2 → 0 ≤ c → c < 2 →
        (0 ≤ 2 * i - 2 * gh.offset (L + 1) 0 + a ∧
          2 * i - 2 * gh.offset (L + 1) 0 + a < (gh.size (L + 1) 0 : ℤ) ∧
          0 ≤ 2 * j - 2 * gh.offset (L + 1) 1 + b ∧
          2 * j - 2 * gh.offset (L + 1) 1 + b < (gh.size (L + 1) 1 : ℤ) ∧
          0 ≤ 2 * k - 2 * gh.offset (L + 1) 2 + c ∧
          2 * k - 2 * gh.offset (L + 1) 2 + c < (gh.size (L + 1) 2 : ℤ)) ∧
        0 < GridHierarchy.add_refinement_mask gh query s0 (L + 1)
          (2 * i - 2 * gh.offset (L + 1) 0 + a)
          (2 * j - 2 * gh.offset (L + 1) 1 + b)
          (2 * k - 2 * gh.offset (L + 1) 2 + c)) := by
  have hval := add_mask_coarse_value gh query s0 L i j k hL1 hL2
  have hflag_of : GridHierarchy.add_refinement_mask gh query s0 L i j k = 2 →
      GridHierarchy.fine_flagged gh
        (GridHierarchy.mask_phase1 gh query s0) L i j k := by
    intro h2
    rw [hval] at h2
    by_contra hfl
    rw [if_neg fun hc => hfl hc.2] at h2
    exact maskF_ne_two_below gh query s0 (L - gh.m_levelmin) L i j k
      (by omega) hL1 (by omega) h2
  refine ⟨⟨hflag_of, fun hfl => by rw [hval, if_pos ⟨hib, hfl⟩]⟩, ?_⟩
  intro h2 a b c ha1 ha2 hb1 hb2 hc1 hc2
  have hfl := hflag_of h2
  have hbase := hfl.1
  obtain ⟨hx1, hx2, hy1, hy2, hz1, hz2⟩ := hbase
  obtain ⟨e0, e1, e2⟩ := heven
  refine ⟨⟨by omega, by omega, by omega, by omega, by omega, by omega⟩, ?_⟩
  exact add_mask_child_value gh query s0 L i j k a b c hL1 hL2 hib hfl
    ha1 ha2 hb1 hb2 hc1 hc2

/-- Counterexample to the original C6 statement: in `cexGH` with the
level-3-only region query, the final mask at level 1, cell `(0,0,0)` is
*not* `2`, although its base child cell on level 2 lies inside level 2's
extents and carries a positive *final* mask value (the pass at level 2
promoted it to `2` after the pass at level 1 had already scanned it). -/
theorem C6_final_mask_iff_cex :
    cexGH.m_levelmin < cexGH.levelmaxN ∧
    cexGH.m_levelmin ≤ 1 ∧ 1 < cexGH.levelmaxN ∧
    (0 ≤ (0 : ℤ) ∧ (0 : ℤ) < (cexGH.size 1 0 : ℤ) ∧ 0 ≤ (0 : ℤ) ∧
      (0 : ℤ) < (cexGH.size 1 1 : ℤ) ∧ 0 ≤ (0 : ℤ) ∧
      (0 : ℤ) < (cexGH.size 1 2 : ℤ)) ∧
    ¬ GridHierarchy.add_refinement_mask cexGH cexQuery cexS0 1 0 0 0 = 2 ∧
    (0 ≤ 2 * 0 - 2 * cexGH.offset (1 + 1) 0 + 0 ∧
      2 * 0 - 2 * cexGH.offset (1 + 1) 0 + 0 < (cexGH.size (1 + 1) 0 : ℤ) ∧
      0 ≤ 2 * 0 - 2 * cexGH.offset (1 + 1) 1 + 0 ∧
      2 * 0 - 2 * cexGH.offset (1 + 1) 1 + 0 < (cexGH.size (1 + 1) 1 : ℤ) ∧
      0 ≤ 2 * 0 - 2 * cexGH.offset (1 + 1) 2 + 0 ∧
      2 * 0 - 2 * cexGH.offset (1 + 1) 2 + 0 < (cexGH.size (1 + 1) 2 : ℤ)) ∧
    0 < GridHierarchy.add_refinement_mask cexGH cexQuery cexS0 (1 + 1)
      (2 * 0 - 2 * cexGH.offset (1 + 1) 0 + 0)
      (2 * 0 - 2 * cexGH.offset (1 + 1) 1 + 0)
      (2 * 0 - 2 * cexGH.offset (1 + 1) 2 + 0) := by decide

/-- Witness for C6 at `cexGH`, level 2, cell `(0,0,0)`: the hypotheses
hold concretely, the cell's final mask value is `2`, and the child cell
`(0,0,0)` of level 3 ends with a positive final value. -/
theorem C6_refinement_mask_witness :
    GridHierarchy.add_refinement_mask cexGH cexQuery cexS0 2 0 0 0 = 2 ∧
    0 < GridHierarchy.add_refinement_mask cexGH cexQuery cexS0 (2 + 1)
      (2 * 0 - 2 * cexGH.offset (2 + 1) 0 + 0)
      (2 * 0 - 2 * cexGH.offset (2 + 1) 1 + 0)
      (2 * 0 - 2 * cexGH.offset (2 + 1) 2 + 0) := by
  have h := C6_refinement_mask cexGH cexQuery cexS0 2 0 0 0 (by decide)
    (by decide) (by decide) (by decide)
  have h2 := h.1.mpr (by decide)
  exact ⟨h2, (h.2 h2 0 0 0 (by decide) (by decide) (by decide) (by decide)
    (by decide) (by decide)).2⟩

end Music
